import Mathlib

/-!
Verification development for the repository file
`telecharger_site_complet.py`, a script that mirrors the authenticated
document portal cahier-de-prepa.fr into an offline copy.

Strings are modelled as lists of characters (the Python source manipulates
only character data).  Python operations are embedded faithfully:
`sub in s` is `sub <:+: s` (substring containment), `s.startswith(p)` is
`S p <+: s`, `s.split(sep)` is `pySplit`, `s.replace(a, b)` is `pyReplace`,
and so on.  The stateful traversal code (class SiteDownloader) becomes
explicit state passing over the structure `St` further below.
-/

namespace CahierPrepa

set_option maxHeartbeats 1000000

/-- Characters of a Python string literal. -/
def S (s : String) : List Char := s.toList
/-- Finds the leftmost occurrence of `sep` in `s`; returns the part before
the occurrence and the part after it, or `none` when `sep` does not occur.
This is the scanning step underlying Python `split` and `replace`. -/
def splitOnce (s sep : List Char) : Option (List Char × List Char) :=
  match s with
  | [] => none
  | c :: t =>
    if sep <+: (c :: t) then some ([], (c :: t).drop sep.length)
    else
      match splitOnce t sep with
      | none => none
      | some (pre, post) => some (c :: pre, post)
/-- Fuelled splitting loop behind `pySplit`.  Each round removes the
leftmost occurrence of the separator; `splitOnce_post_lt` shows the
remainder shrinks, so fuel `s.length + 1` always suffices, and the fuel
keeps every definition built on it reducible by the kernel. -/
def pySplitF : Nat → List Char → List Char → List (List Char)
  | 0, s, _ => [s]
  | fuel + 1, s, sep =>
    match splitOnce s sep with
    | none => [s]
    | some (pre, post) => pre :: pySplitF fuel post sep
/-- Python `s.split(sep)` for a nonempty separator: the list of segments
between the leftmost nonoverlapping occurrences of `sep`.  An empty
separator is rejected by Python; the model returns `[s]` in that case. -/
def pySplit (s sep : List Char) : List (List Char) :=
  if sep = [] then [s] else pySplitF (s.length + 1) s sep
/-!
The link rewriter.  `fix_link` is the method SiteDownloader.fix_link of
the source: it receives one href value and returns the corrected value.
The argument link_text of the Python method is unused by its body and is
omitted.  Python idioms map as follows: `not href` is `href = []`,
`href.startswith(p)` is `S p <+: href`, `sub in href` is `sub <:+: href`,
`href.split(sep)[-1]` is `(pySplit href (S sep)).getLastD []`, and
`href.split(sep)[0]` is `(pySplit href (S sep)).headD []`.
-/

/-- The repo identifier extracted by fix_link from an href, which is the
Python expression `href.split('rep=')[-1].split('&')[0]`. -/
def repIdOf (href : List Char) : List Char :=
  (pySplit ((pySplit href (S "rep=")).getLastD []) (S "&")).headD []
/-- The file identifier extracted by fix_link from an href, which is the
Python expression `href.split('id=')[-1].split('&')[0]`. -/
def fileIdOf (href : List Char) : List Char :=
  (pySplit ((pySplit href (S "id=")).getLastD []) (S "&")).headD []
/-- Method SiteDownloader.fix_link of the source, lines 625 to 661. -/
def fix_link (href : List Char) : List Char :=
  if href = [] ∨ S "#" <+: href ∨ S "javascript:" <+: href then href
  else if S "assets/" <+: href ∨ S "fichiers/" <+: href then href
  else if S "download?id=" <:+: href then S "fichiers/" ++ fileIdOf href
  else if S "docs?rep=" <:+: href then
    S "docs_rep_" ++ repIdOf href ++ S ".html"
  else if S "?rep=" <+: href then
    S "docs_rep_" ++ repIdOf href ++ S ".html"
  else if href = S "." ∨ href = S "./" ∨ href = S "index" ∨
      href = S "index.html" then S "index.html"
  else if href = S "docs" ∨ href = S "docs.html" then S "docs.html"
  else if href = S "recent" ∨ href = S "agenda" ∨ href = S "mail" ∨
      href = S "notescolles" ∨ href = S "prefs" ∨ href = S "blogcdp" then
    S "#"
  else if S "notescolles?" <+: href ∨ S ".?" <+: href then S "#"
  else href
/-- One saved HTML page, reduced to the attribute values the rewriting
pass reads and writes: stylesheet href values, script src values and
anchor href values, in document order.  BeautifulSoup parsing and
serialisation leave all other markup untouched, so the pass is the map of
the three per-value fixers over these lists. -/
structure PageLinks where
  cssHrefs : List (List Char)
  jsSrcs : List (List Char)
  aHrefs : List (List Char)
/-- Stylesheet rewriting step of SiteDownloader.fix_html_links, lines 573
to 579 of the source: css/x becomes assets/css/x. -/
def fix_css (href : List Char) : List Char :=
  if S "css/" <+: href then S "assets/" ++ href else href
/-- Script rewriting step of SiteDownloader.fix_html_links, lines 582 to
587 of the source: js/x becomes assets/js/x. -/
def fix_js (src : List Char) : List Char :=
  if S "js/" <+: src then S "assets/" ++ src else src
/-- Action of one pass of SiteDownloader.fix_html_links on one page,
lines 563 to 601 of the source. -/
def fix_html_links (p : PageLinks) : PageLinks :=
  { cssHrefs := p.cssHrefs.map fix_css
    jsSrcs := p.jsSrcs.map fix_js
    aHrefs := p.aHrefs.map fix_link }
/-!
The file title slug.  download_file cleans the human title into a
filesystem-safe name, lines 304 to 310 of the source, and appends the
real extension of the downloaded file, lines 364 to 371.  The regex
classes are modelled over the ASCII alphabet.
-/

/-- Python regex class of whitespace, ASCII part: space, tab, newline,
carriage return, vertical tab and form feed. -/
def pyIsSpace (c : Char) : Bool :=
  c = ' ' || c = '\t' || c = '\n' || c = '\r' ||
    c = Char.ofNat 11 || c = Char.ofNat 12
/-- Python regex class of word characters over ASCII: letters, digits and
the underscore. -/
def pyIsWord (c : Char) : Bool := c.isAlphanum || c = '_'
/-- First cleaning step, line 305: remove every character outside the
class of word characters, whitespace, hyphen and period. -/
def stripIllegal (title : List Char) : List Char :=
  title.filter fun c => pyIsWord c || pyIsSpace c || c = '-' || c = '.'
/-- Loop behind `collapseWs`: the flag records whether the previous
character belonged to a whitespace run already replaced by one space. -/
def collapseWsGo : Bool → List Char → List Char
  | _, [] => []
  | inRun, c :: t =>
    if pyIsSpace c then
      if inRun then collapseWsGo true t else ' ' :: collapseWsGo true t
    else c :: collapseWsGo false t
/-- Second cleaning step, line 306: every maximal whitespace run becomes
one single space. -/
def collapseWs (l : List Char) : List Char := collapseWsGo false l
/-- Python strip() with no argument: whitespace removed from both ends. -/
def pyStrip (l : List Char) : List Char :=
  ((l.dropWhile fun c => pyIsSpace c).reverse.dropWhile fun c =>
    pyIsSpace c).reverse
/-- Truncation step, lines 309 and 310: titles longer than 200
characters are cut to 197 characters plus three dots. -/
def truncate200 (l : List Char) : List Char :=
  if 200 < l.length then l.take 197 ++ S "..." else l
/-- The safe title computed by download_file, lines 305 to 310. -/
def safe_title (title : List Char) : List Char :=
  truncate200 (pyStrip (collapseWs (stripIllegal title)))
/-- Extension append of download_file, lines 364 to 371: the real
extension of the downloaded file is appended unless the title already
ends with it or the extension is empty. -/
def withExt (safeTitle ext : List Char) : List Char :=
  if ¬ (ext <:+ safeTitle) ∧ ext ≠ [] then safeTitle ++ ext else safeTitle
/-- Characters the amended claim C7 allows in a slug. -/
def slugChar (c : Char) : Prop :=
  c.isAlpha = true ∨ c.isDigit = true ∨ c = '_' ∨ c = ' ' ∨ c = '-' ∨
    c = '.'
/-- Characters the claim C7 as written allows in a slug: the underscore
is missing from its list. -/
def slugCharClaimed (c : Char) : Prop :=
  c.isAlpha = true ∨ c.isDigit = true ∨ c = ' ' ∨ c = '-' ∨ c = '.'
/-- No two consecutive characters of the list are both whitespace. -/
def NoWsRun (l : List Char) : Prop :=
  List.Chain' (fun a b => ¬(pyIsSpace a = true ∧ pyIsSpace b = true)) l
instance : DecidablePred slugChar := fun c =>
  inferInstanceAs (Decidable (c.isAlpha = true ∨ c.isDigit = true ∨
    c = '_' ∨ c = ' ' ∨ c = '-' ∨ c = '.'))
instance : DecidablePred slugCharClaimed := fun c =>
  inferInstanceAs (Decidable (c.isAlpha = true ∨ c.isDigit = true ∨
    c = ' ' ∨ c = '-' ∨ c = '.'))
/-!
The URL normaliser, function normalize_url of the source, lines 40 to 70.
Python str.replace is modelled as split followed by join with the
replacement, which is exactly its leftmost nonoverlapping semantics.
-/

/-- Python s.replace(old, new) for a nonempty old. -/
def pyReplace (s old new : List Char) : List Char :=
  List.intercalate new (pySplit s old)
/-- Python rstrip with a slash argument: trailing slashes removed. -/
def rstripSlash (l : List Char) : List Char :=
  (l.reverse.dropWhile fun c => c = '/').reverse
/-- Function normalize_url of the source, lines 40 to 70.  The Python
code strips surrounding whitespace, removes the trailing slashes, then
dispatches on the shape of the input. -/
def normalize_url (user_input : List Char) : List Char :=
  let url := rstripSlash (pyStrip user_input)
  if S "https://cahier-de-prepa.fr/" <+: url then url ++ S "/"
  else if S "http://cahier-de-prepa.fr/" <+: url then
    pyReplace url (S "http://") (S "https://") ++ S "/"
  else if S "cahier-de-prepa.fr/" <+: url then S "https://" ++ url ++ S "/"
  else S "https://cahier-de-prepa.fr/" ++ url ++ S "/"
/-- Characters that may appear in a site name on the portal: letters,
digits and hyphens. -/
def siteChar (c : Char) : Prop := c.isAlphanum = true ∨ c = '-'
instance : DecidablePred siteChar := fun c =>
  inferInstanceAs (Decidable (c.isAlphanum = true ∨ c = '-'))
/-!
The traversal engine and the download correlator, class SiteDownloader of
the source.  Identifiers, titles and labels are strings, modelled as
character lists.  The selenium browser, the remote site and the shared
download folder are external collaborators: an Env value records what
they return — the parsed content of each directory page, and the download
folder contents seen at each one-second poll after a download trigger.
The mutable attributes of the SiteDownloader instance become the record
St, threaded explicitly; download_attempts and explore_log record the
download triggers issued and the repositories explored, which the source
emits as log lines.
-/

/-- An entry of the shared download folder: name, modification time in
seconds, and size in bytes. -/
structure DirEntry where
  name : List Char
  mtime : Nat
  size : Nat
deriving DecidableEq
/-- The download folder behaviour for one triggered download: the names
present before the trigger (the glob of line 316), the folder contents at
each subsequent poll, and the trigger time (line 317). -/
structure DlEnv where
  before : List (List Char)
  snap : Nat → List DirEntry
  beforeTime : Nat
/-- One rendered directory page: whether the saved source carries the
logged-in marker (the icon-deconnexion test of line 267), and the child
directory links and file links parsed from it (lines 443 to 465). -/
structure PageData where
  loggedIn : Bool
  subRepos : List (List Char × List Char)
  files : List (List Char × List Char)
/-- The external collaborators of one run. -/
structure Env where
  page : List Char → PageData
  dl : List Char → DlEnv
/-- A value of repo_mapping, line 279 of the source. -/
structure RepoEntry where
  fichier : List Char
  nom_complet : List Char
  url_originale : List Char
  texte_clique : List Char
deriving DecidableEq
/-- A value of file_mapping, line 398 of the source. -/
structure FileEntry where
  fichier_reel : List Char
  lien_symbolique : List Char
  titre : List Char
  repository : List Char
  taille : List Char
deriving DecidableEq
/-- An entry of failed_files, line 412 of the source. -/
structure DlFailure where
  id : List Char
  titre : List Char
  erreur : List Char
deriving DecidableEq
/-- The mutable state of a SiteDownloader instance, lines 108 to 115. -/
structure St where
  test_mode : Bool
  visited_repos : List (List Char)
  repo_mapping : List (List Char × RepoEntry)
  file_mapping : List (List Char × FileEntry)
  downloaded_files_count : Nat
  failed_files : List DlFailure
  subpages_count : Nat
  download_attempts : List (List Char)
  explore_log : List (List Char)
deriving DecidableEq
def TEST_MAX_REPOS : Nat := 1
def TEST_MAX_SUBPAGES : Nat := 10
def TEST_MAX_FILES : Nat := 10
/-- Assignment into a Python dict keyed by identifier: overwrite the
value in place when the key exists, append otherwise. -/
def dictInsert {V : Type} (m : List (List Char × V)) (k : List Char)
    (v : V) : List (List Char × V) :=
  if (m.lookup k).isSome then
    m.map fun p => if p.1 = k then (k, v) else p
  else m ++ [(k, v)]
/-- The characters after the last dot of a list, when a dot occurs. -/
def afterLastDot : List Char → Option (List Char)
  | [] => none
  | c :: t =>
    match afterLastDot t with
    | some s => some s
    | none => if c = '.' then some t else none
/-- Attribute suffix of a pathlib Path value: the extension of the final
component including the dot, empty when the last dot is leading,
trailing or absent. -/
def pathSuffix : List Char → List Char
  | [] => []
  | _ :: rest =>
    match afterLastDot rest with
    | some s => if s ≠ [] then '.' :: s else []
    | none => []
/-- First entry of a descending stable sort by modification time, which
is the leftmost entry of maximal mtime, line 343 of the source. -/
def pickLatest : List DirEntry → Option DirEntry
  | [] => none
  | e :: t =>
    match pickLatest t with
    | none => some e
    | some b => some (if b.mtime > e.mtime then b else e)
/-- The polling loop of download_file, lines 336 to 350: up to thirty
polls; each poll globs the folder, keeps the entries absent from the
baseline, and selects the most recent; the loop breaks only when the
selection is not older than the trigger, but the selection variable keeps
the stale candidate otherwise. -/
def pollLoopGo (d : DlEnv) : Nat → Nat → Option DirEntry → Option DirEntry
  | _, 0, latest => latest
  | i, r + 1, latest =>
    match pickLatest ((d.snap i).filter fun e => ¬ e.name ∈ d.before) with
    | none => pollLoopGo d (i + 1) r latest
    | some cand =>
      if cand.mtime ≥ d.beforeTime then some cand
      else pollLoopGo d (i + 1) r (some cand)
def pollLoop (d : DlEnv) : Option DirEntry := pollLoopGo d 0 30 none
/-- Size rendering of download_file, lines 380 to 385: truncating
integer division, no rounding. -/
def size_str (file_size : Nat) : List Char :=
  if file_size < 1024 then S (toString file_size ++ " octets")
  else if file_size < 1024 * 1024 then
    S (toString (file_size / 1024) ++ " Ko")
  else S (toString (file_size / (1024 * 1024)) ++ " Mo")
/-- Method SiteDownloader.download_file, lines 294 to 413.  The selenium
trigger of lines 319 to 330 swallows the expected page-load timeout; the
model records the trigger in download_attempts.  The wait loop of lines
356 to 362 re-reads latest_file.suffix, a pure attribute of the immutable
Path value selected by the polling loop, so its condition never changes:
a candidate selected while still carrying the .part marker always ends in
the incomplete-download failure, whatever happens on disk afterwards. -/
def download_file (env : Env) (file_id title repo_name : List Char)
    (st : St) : St × Bool :=
  if st.test_mode ∧ st.downloaded_files_count ≥ TEST_MAX_FILES then
    (st, false)
  else
    let safe := safe_title title
    let st := { st with
      download_attempts := st.download_attempts ++ [file_id] }
    match pollLoop (env.dl file_id) with
    | none =>
      ({ st with failed_files := st.failed_files ++
          [⟨file_id, title, S "Aucun nouveau fichier téléchargé trouvé"⟩] },
        false)
    | some latest =>
      if pathSuffix latest.name = S ".part" then
        ({ st with failed_files := st.failed_files ++
            [⟨file_id, title, S "Téléchargement incomplet"⟩] }, false)
      else
        let file_ext := pathSuffix latest.name
        let safe2 := if ¬ (file_ext <:+ safe) ∧ file_ext ≠ [] then
          safe ++ file_ext else safe
        ({ st with
            file_mapping := dictInsert st.file_mapping file_id
              ⟨safe2, file_id, title, repo_name, size_str latest.size⟩,
            downloaded_files_count := st.downloaded_files_count + 1 },
          true)
/-- Method SiteDownloader.save_page for a directory page, lines 236 to
292.  The early return guards on the visited set; the visited set gains
the identifier before the page content is checked; a page carrying the
login form without the logged-in marker is abandoned with nothing
written, after the identifier has already been added. -/
def save_page (env : Env) (repo_id link_text : List Char) (st : St) : St :=
  if repo_id ∈ st.visited_repos then st
  else
    let st := { st with visited_repos := st.visited_repos ++ [repo_id] }
    if (env.page repo_id).loggedIn = false then st
    else { st with repo_mapping := (dictInsert st.repo_mapping repo_id
        ⟨S "docs_rep_" ++ repo_id ++ S ".html", link_text,
          S "docs?rep=" ++ repo_id, link_text⟩) }
/-- The loop over discovered child directories at lines 467 to 470 of
explore_repository: recurse into each child absent from the visited
set. -/
def exploreList (f : List Char → List Char → St → St) :
    List (List Char × List Char) → St → St
  | [], st => st
  | sr :: rest, st =>
    exploreList f rest
      (if ¬ sr.1 ∈ st.visited_repos then f sr.1 sr.2 st else st)
/-- Method SiteDownloader.explore_repository, lines 415 to 470, with
explicit fuel for the recursion depth; the run uses any fuel above the
number of distinct directories, and fuel zero returns the state
unchanged.  The subpage counter and the test-mode cap guard the entry;
the page is saved, every file link triggers download_file, and every
unvisited child is explored recursively. -/
def explore_repository (env : Env) :
    Nat → List Char → List Char → St → St
  | 0, _, _, st => st
  | fuel + 1, repo_id, link_text, st =>
    if st.test_mode ∧ st.subpages_count ≥ TEST_MAX_SUBPAGES then st
    else
      let st := { st with subpages_count := st.subpages_count + 1,
                          explore_log := st.explore_log ++ [repo_id] }
      let st := save_page env repo_id link_text st
      let page := env.page repo_id
      let st := page.files.foldl
        (fun s fl => (download_file env fl.1 fl.2 link_text s).1) st
      exploreList (explore_repository env fuel) page.subRepos st
/-- Keys of a dict model are pairwise distinct. -/
def KeysNodup {V : Type} (m : List (List Char × V)) : Prop :=
  (m.map Prod.fst).Nodup
instance {V : Type} (m : List (List Char × V)) : Decidable (KeysNodup m) :=
  inferInstanceAs (Decidable ((m.map Prod.fst).Nodup))
/-- The state facts the claim C3 tracks: the visited set has no
duplicates, and every recorded page file name has the docs_rep form. -/
def P3 (st : St) : Prop :=
  st.visited_repos.Nodup ∧
    ∀ p ∈ st.repo_mapping, p.2.fichier = S "docs_rep_" ++ p.1 ++ S ".html"
/-- Successful download environment: one new pdf appears at once. -/
def okDl : DlEnv := ⟨[], fun _ => [⟨S "f.pdf", 100, 10⟩], 50⟩
/-- Download environment where no new entry ever appears. -/
def emptyDl : DlEnv := ⟨[], fun _ => [], 50⟩
/-- The initial state of a run, matching lines 108 to 115. -/
def st0 : St := ⟨false, [], [], [], 0, [], 0, [], []⟩
/-- Site with one root directory whose two children both link the same
file identifier F. -/
def envC1 : Env :=
  ⟨fun id =>
    if id = S "1" then ⟨true, [(S "2", S "a"), (S "3", S "b")], []⟩
    else if id = S "2" then ⟨true, [], [(S "F", S "t")]⟩
    else if id = S "3" then ⟨true, [], [(S "F", S "t")]⟩
    else ⟨true, [], []⟩,
  fun _ => okDl⟩
/-- Site whose every page renders without the logged-in marker. -/
def envC2 : Env := ⟨fun _ => ⟨false, [], []⟩, fun _ => okDl⟩
/-- Site with one root directory carrying two links to directory 5. -/
def envC3 : Env :=
  ⟨fun id =>
    if id = S "1" then ⟨true, [(S "5", S "a"), (S "5", S "b")], []⟩
    else ⟨true, [], []⟩,
  fun _ => okDl⟩
/-- Download folder for the part-marker run: the first poll shows the
in-progress entry, and from the next second on the finished file has
replaced it. -/
def dlC8 : DlEnv :=
  ⟨[], fun i =>
    if i = 0 then [⟨S "cours.pdf.part", 100, 5⟩]
    else [⟨S "cours.pdf", 101, 10⟩], 50⟩
def envC8 : Env := ⟨fun _ => ⟨true, [], []⟩, fun _ => dlC8⟩
/-- Site with one directory holding a failing download followed by a
succeeding one. -/
def envC9 : Env :=
  ⟨fun id =>
    if id = S "1" then
      ⟨true, [], [(S "fbad", S "tb"), (S "fok", S "tg")]⟩
    else ⟨true, [], []⟩,
  fun f => if f = S "fbad" then emptyDl else okDl⟩
def envC7 : Env := ⟨fun _ => ⟨true, [], []⟩, fun _ => okDl⟩
/-- Modelled from the spec: the success condition of the intended
part-marker wait of section 4.2 step 4 — the in-progress marker
disappears from the download folder within the thirty-poll wait
budget. -/
def markerRemovedWithinBudget (d : DlEnv) (selName : List Char) : Prop :=
  ∃ k ≤ 30, ∀ e ∈ d.snap k, e.name ≠ selName

theorem splitOnce_append {s sep pre post : List Char}
    (h : splitOnce s sep = some (pre, post)) : s = pre ++ sep ++ post := by
  induction s generalizing pre with
  | nil => simp [splitOnce] at h
  | cons c t ih =>
    rw [splitOnce] at h
    split at h
    · rename_i hp
      obtain ⟨r, hr⟩ := hp
      simp only [Option.some.injEq, Prod.mk.injEq] at h
      obtain ⟨h1, h2⟩ := h
      subst h1
      rw [← hr, List.drop_left] at h2
      simp [← hr, h2]
    · revert h
      split
      · intro h; exact absurd h (by simp)
      · rename_i pre' post' heq
        intro h
        simp only [Option.some.injEq, Prod.mk.injEq] at h
        obtain ⟨h1, h2⟩ := h
        subst h2
        rw [← h1]
        simpa using ih heq
theorem splitOnce_occurs {s sep pre post : List Char}
    (h : splitOnce s sep = some (pre, post)) : sep <:+: s := by
  rw [splitOnce_append h]; exact ⟨pre, post, by simp⟩
theorem splitOnce_eq_none {s sep : List Char} (h : ¬ sep <:+: s) :
    splitOnce s sep = none := by
  cases heq : splitOnce s sep with
  | none => rfl
  | some pp =>
    obtain ⟨pre, post⟩ := pp
    exact absurd (splitOnce_occurs heq) h
theorem splitOnce_none_no_occ {s sep : List Char} (hsep : sep ≠ [])
    (h : splitOnce s sep = none) : ¬ sep <:+: s := by
  induction s with
  | nil =>
    intro hinf
    exact hsep (List.eq_nil_of_length_eq_zero
      (Nat.le_zero.1 (by simpa using hinf.length_le)))
  | cons c t ih =>
    rw [splitOnce] at h
    by_cases hp : sep <+: (c :: t)
    · rw [if_pos hp] at h; exact absurd h (by simp)
    · rw [if_neg hp] at h
      intro hinf
      rcases List.infix_cons_iff.1 hinf with hpre | hin
      · exact hp hpre
      · cases heq : splitOnce t sep with
        | none => exact ih heq hin
        | some pp =>
          obtain ⟨pre, post⟩ := pp
          rw [heq] at h
          exact absurd h (by simp)
/-- The part before the leftmost occurrence contains no occurrence of
`sep` itself (the scan stops at the first match). -/
theorem splitOnce_pre_clean {s sep pre post : List Char} (hsep : sep ≠ [])
    (h : splitOnce s sep = some (pre, post)) : ¬ sep <:+: pre := by
  induction s generalizing pre post with
  | nil => simp [splitOnce] at h
  | cons c t ih =>
    rw [splitOnce] at h
    split at h
    · simp only [Option.some.injEq, Prod.mk.injEq] at h
      obtain ⟨h1, _⟩ := h
      subst h1
      intro hinf
      exact hsep (List.eq_nil_of_length_eq_zero
        (Nat.le_zero.1 (by simpa using hinf.length_le)))
    · rename_i hnp
      revert h
      split
      · intro h; exact absurd h (by simp)
      · rename_i pre' post' heq
        intro h
        simp only [Option.some.injEq, Prod.mk.injEq] at h
        obtain ⟨h1, h2⟩ := h
        rw [← h1]
        intro hinf
        rcases (List.infix_cons_iff).1 hinf with hpre | hin
        · have hp2 : pre' <+: t :=
            ⟨sep ++ post', by simpa using (splitOnce_append heq).symm⟩
          exact hnp (hpre.trans (List.cons_prefix_cons.2 ⟨rfl, hp2⟩))
        · exact ih heq hin
theorem splitOnce_some_length {s sep pre post : List Char}
    (h : splitOnce s sep = some (pre, post)) :
    s.length = pre.length + sep.length + post.length := by
  have := congrArg List.length (splitOnce_append h)
  simp at this
  omega
/-- With a nonempty separator, the remainder handed to the next splitting
round is strictly shorter. -/
theorem splitOnce_post_lt {s sep pre post : List Char} (hsep : sep ≠ [])
    (h : splitOnce s sep = some (pre, post)) : post.length < s.length := by
  have hl := splitOnce_some_length h
  have h1 : 1 ≤ sep.length := List.length_pos.2 hsep
  omega
theorem pySplitF_fuel_irrel {fuel₁ fuel₂ : Nat} {s sep : List Char}
    (hsep : sep ≠ []) (h₁ : s.length < fuel₁) (h₂ : s.length < fuel₂) :
    pySplitF fuel₁ s sep = pySplitF fuel₂ s sep := by
  induction fuel₁ generalizing fuel₂ s with
  | zero => omega
  | succ f ih =>
    cases fuel₂ with
    | zero => omega
    | succ g =>
      show pySplitF (f + 1) s sep = pySplitF (g + 1) s sep
      rw [pySplitF, pySplitF]
      cases heq : splitOnce s sep with
      | none => rfl
      | some pp =>
        obtain ⟨pre, post⟩ := pp
        have hlt := splitOnce_post_lt hsep heq
        exact congrArg _ (ih (by omega) (by omega))
theorem pySplit_of_none {s sep : List Char} (h : splitOnce s sep = none) :
    pySplit s sep = [s] := by
  unfold pySplit
  split
  · rfl
  · rw [pySplitF, h]
theorem pySplit_of_some {s sep pre post : List Char} (hsep : sep ≠ [])
    (h : splitOnce s sep = some (pre, post)) :
    pySplit s sep = pre :: pySplit post sep := by
  unfold pySplit
  rw [if_neg hsep, if_neg hsep, pySplitF, h]
  exact congrArg _
    (pySplitF_fuel_irrel hsep (splitOnce_post_lt hsep h) (by omega))
theorem pySplit_ne_nil {s sep : List Char} : pySplit s sep ≠ [] := by
  unfold pySplit
  split
  · simp
  · rw [pySplitF]
    split <;> simp
theorem getLastD_cons_of_ne_nil {α : Type} {l : List α} (h : l ≠ [])
    (x d : α) : (x :: l).getLastD d = l.getLastD d := by
  cases l with
  | nil => exact absurd rfl h
  | cons a t => rfl
/-- Python `s.split(sep)[-1]` is a suffix of `s`. -/
theorem pySplit_getLast_suffix (s sep : List Char) :
    (pySplit s sep).getLastD [] <:+ s := by
  by_cases hsep : sep = []
  · unfold pySplit
    rw [if_pos hsep]
    simp
  · cases heq : splitOnce s sep with
    | none => rw [pySplit_of_none heq]; simp
    | some pp =>
      obtain ⟨pre, post⟩ := pp
      rw [pySplit_of_some hsep heq,
        getLastD_cons_of_ne_nil pySplit_ne_nil]
      have hlt : post.length < s.length := splitOnce_post_lt hsep heq
      have ih : (pySplit post sep).getLastD [] <:+ post :=
        pySplit_getLast_suffix post sep
      exact ih.trans ⟨pre ++ sep, by simpa using (splitOnce_append heq).symm⟩
termination_by s.length
/-- The final segment of a Python split contains no further occurrence of
the separator. -/
theorem pySplit_getLast_clean (s : List Char) {sep : List Char}
    (hsep : sep ≠ []) : ¬ sep <:+: (pySplit s sep).getLastD [] := by
  cases heq : splitOnce s sep with
  | none =>
    rw [pySplit_of_none heq]
    exact splitOnce_none_no_occ hsep heq
  | some pp =>
    obtain ⟨pre, post⟩ := pp
    rw [pySplit_of_some hsep heq,
      getLastD_cons_of_ne_nil pySplit_ne_nil]
    have hlt : post.length < s.length := splitOnce_post_lt hsep heq
    exact pySplit_getLast_clean post hsep
termination_by s.length
/-- Python `s.split(sep)[0]` is a whole piece at the front of `s`. -/
theorem pySplit_head_isPre (s sep : List Char) :
    (pySplit s sep).headD [] <+: s := by
  by_cases hsep : sep = []
  · unfold pySplit
    rw [if_pos hsep]
    simp
  · cases heq : splitOnce s sep with
    | none => rw [pySplit_of_none heq]; simp
    | some pp =>
      obtain ⟨pre, post⟩ := pp
      rw [pySplit_of_some hsep heq]
      simp only [List.headD_cons]
      exact ⟨sep ++ post, by simpa using (splitOnce_append heq).symm⟩
/-- An occurrence of `sub` inside `a ++ b` lies inside `a`, lies inside
`b`, or straddles the boundary with a nonempty piece on each side. -/
theorem infix_append_decomp {sub a b : List Char} (h : sub <:+: a ++ b) :
    sub <:+: a ∨ sub <:+: b ∨
      ∃ s1 s2, sub = s1 ++ s2 ∧ s1 ≠ [] ∧ s2 ≠ [] ∧ s1 <:+ a ∧ s2 <+: b := by
  obtain ⟨u, v, huv⟩ := h
  have huv2 : u ++ (sub ++ v) = a ++ b := by simpa using huv
  rcases List.append_eq_append_iff.1 huv2 with ⟨a2, ha, hb⟩ | ⟨c2, _, hd⟩
  · rcases List.append_eq_append_iff.1 hb with ⟨x, hx, _⟩ | ⟨y, hy, hbv⟩
    · exact Or.inl ⟨u, x, by rw [ha, hx]; simp⟩
    · cases hy2 : y with
      | nil =>
        refine Or.inl ⟨u, [], ?_⟩
        rw [ha, hy, hy2]
        simp
      | cons d t =>
        cases ha2 : a2 with
        | nil =>
          refine Or.inr (Or.inl ⟨[], v, ?_⟩)
          rw [hbv, hy, ha2]
          simp
        | cons e r =>
          refine Or.inr (Or.inr ⟨a2, y, hy, by rw [ha2]; simp, by rw [hy2]; simp,
            ⟨u, ha.symm⟩, ⟨v, hbv.symm⟩⟩)
  · exact Or.inr (Or.inl ⟨c2, v, by rw [hd]; simp⟩)
/-- If no nonempty front part of `sub` is a suffix of `a`, an occurrence
of `sub` in `a ++ b` cannot straddle the boundary. -/
theorem infix_append_of_no_left_straddle {sub a b : List Char}
    (hL : ∀ k < sub.length, 0 < k → ¬ (sub.take k <:+ a))
    (h : sub <:+: a ++ b) : sub <:+: a ∨ sub <:+: b := by
  rcases infix_append_decomp h with h1 | h1 | ⟨s1, s2, hsub, hn1, hn2, hsa, _⟩
  · exact Or.inl h1
  · exact Or.inr h1
  · exfalso
    have htake : sub.take s1.length = s1 := by
      rw [hsub]; exact List.take_left s1 s2
    refine hL s1.length ?_ (List.length_pos.2 hn1) (by rw [htake]; exact hsa)
    have := congrArg List.length hsub
    simp at this
    have : 0 < s2.length := List.length_pos.2 hn2
    omega
/-- If no nonempty back part of `sub` opens `b`, an occurrence of `sub` in
`a ++ b` cannot straddle the boundary. -/
theorem infix_append_of_no_right_straddle {sub a b : List Char}
    (hR : ∀ k < sub.length, 0 < k → ¬ (sub.drop k <+: b))
    (h : sub <:+: a ++ b) : sub <:+: a ∨ sub <:+: b := by
  rcases infix_append_decomp h with h1 | h1 | ⟨s1, s2, hsub, hn1, hn2, _, hpb⟩
  · exact Or.inl h1
  · exact Or.inr h1
  · exfalso
    have hdrop : sub.drop s1.length = s2 := by
      rw [hsub]; exact List.drop_left s1 s2
    refine hR s1.length ?_ (List.length_pos.2 hn1) (by rw [hdrop]; exact hpb)
    have := congrArg List.length hsub
    simp at this
    have : 0 < s2.length := List.length_pos.2 hn2
    omega
/-- A string does not occur inside a list missing one of its characters. -/
theorem not_infix_of_mem_not_mem {sub s : List Char} {c : Char}
    (hc : c ∈ sub) (hs : c ∉ s) : ¬ sub <:+: s :=
  fun h => hs (h.sublist.subset hc)
example : fix_link (S "docs?rep=42") = S "docs_rep_42.html" := by decide
example : fix_link (S "?rep=42") = S "docs_rep_42.html" := by decide
example : fix_link (S "download?id=ABC123") = S "fichiers/ABC123" := by
  decide
example : fix_link (S "recent") = S "#" := by decide
example : fix_link (S "index.html") = S "index.html" := by decide
example : fix_link (S "agenda?week=1") = S "agenda?week=1" := by decide
example : fix_link (S "docs?rep=5&p=2") = S "docs_rep_5.html" := by decide
/-! Branch equations for `fix_link`, one per return of the Python method. -/

theorem fix_link_special {href : List Char}
    (h1 : href = [] ∨ S "#" <+: href ∨ S "javascript:" <+: href) :
    fix_link href = href := by
  unfold fix_link; rw [if_pos h1]
theorem fix_link_local {href : List Char}
    (h1 : ¬(href = [] ∨ S "#" <+: href ∨ S "javascript:" <+: href))
    (h2 : S "assets/" <+: href ∨ S "fichiers/" <+: href) :
    fix_link href = href := by
  unfold fix_link; rw [if_neg h1, if_pos h2]
theorem fix_link_download {href : List Char}
    (h1 : ¬(href = [] ∨ S "#" <+: href ∨ S "javascript:" <+: href))
    (h2 : ¬(S "assets/" <+: href ∨ S "fichiers/" <+: href))
    (h3 : S "download?id=" <:+: href) :
    fix_link href = S "fichiers/" ++ fileIdOf href := by
  unfold fix_link; rw [if_neg h1, if_neg h2, if_pos h3]
theorem fix_link_docsrep {href : List Char}
    (h1 : ¬(href = [] ∨ S "#" <+: href ∨ S "javascript:" <+: href))
    (h2 : ¬(S "assets/" <+: href ∨ S "fichiers/" <+: href))
    (h3 : ¬ S "download?id=" <:+: href)
    (h4 : S "docs?rep=" <:+: href) :
    fix_link href = S "docs_rep_" ++ repIdOf href ++ S ".html" := by
  unfold fix_link; rw [if_neg h1, if_neg h2, if_neg h3, if_pos h4]
theorem fix_link_qrep {href : List Char}
    (h1 : ¬(href = [] ∨ S "#" <+: href ∨ S "javascript:" <+: href))
    (h2 : ¬(S "assets/" <+: href ∨ S "fichiers/" <+: href))
    (h3 : ¬ S "download?id=" <:+: href)
    (h4 : ¬ S "docs?rep=" <:+: href)
    (h5 : S "?rep=" <+: href) :
    fix_link href = S "docs_rep_" ++ repIdOf href ++ S ".html" := by
  unfold fix_link; rw [if_neg h1, if_neg h2, if_neg h3, if_neg h4, if_pos h5]
theorem fix_link_index {href : List Char}
    (h1 : ¬(href = [] ∨ S "#" <+: href ∨ S "javascript:" <+: href))
    (h2 : ¬(S "assets/" <+: href ∨ S "fichiers/" <+: href))
    (h3 : ¬ S "download?id=" <:+: href)
    (h4 : ¬ S "docs?rep=" <:+: href)
    (h5 : ¬ S "?rep=" <+: href)
    (h6 : href = S "." ∨ href = S "./" ∨ href = S "index" ∨
      href = S "index.html") :
    fix_link href = S "index.html" := by
  unfold fix_link
  rw [if_neg h1, if_neg h2, if_neg h3, if_neg h4, if_neg h5, if_pos h6]
theorem fix_link_docspage {href : List Char}
    (h1 : ¬(href = [] ∨ S "#" <+: href ∨ S "javascript:" <+: href))
    (h2 : ¬(S "assets/" <+: href ∨ S "fichiers/" <+: href))
    (h3 : ¬ S "download?id=" <:+: href)
    (h4 : ¬ S "docs?rep=" <:+: href)
    (h5 : ¬ S "?rep=" <+: href)
    (h6 : ¬(href = S "." ∨ href = S "./" ∨ href = S "index" ∨
      href = S "index.html"))
    (h7 : href = S "docs" ∨ href = S "docs.html") :
    fix_link href = S "docs.html" := by
  unfold fix_link
  rw [if_neg h1, if_neg h2, if_neg h3, if_neg h4, if_neg h5, if_neg h6,
    if_pos h7]
theorem fix_link_offline {href : List Char}
    (h1 : ¬(href = [] ∨ S "#" <+: href ∨ S "javascript:" <+: href))
    (h2 : ¬(S "assets/" <+: href ∨ S "fichiers/" <+: href))
    (h3 : ¬ S "download?id=" <:+: href)
    (h4 : ¬ S "docs?rep=" <:+: href)
    (h5 : ¬ S "?rep=" <+: href)
    (h6 : ¬(href = S "." ∨ href = S "./" ∨ href = S "index" ∨
      href = S "index.html"))
    (h7 : ¬(href = S "docs" ∨ href = S "docs.html"))
    (h8 : href = S "recent" ∨ href = S "agenda" ∨ href = S "mail" ∨
      href = S "notescolles" ∨ href = S "prefs" ∨ href = S "blogcdp") :
    fix_link href = S "#" := by
  unfold fix_link
  rw [if_neg h1, if_neg h2, if_neg h3, if_neg h4, if_neg h5, if_neg h6,
    if_neg h7, if_pos h8]
theorem fix_link_offlineq {href : List Char}
    (h1 : ¬(href = [] ∨ S "#" <+: href ∨ S "javascript:" <+: href))
    (h2 : ¬(S "assets/" <+: href ∨ S "fichiers/" <+: href))
    (h3 : ¬ S "download?id=" <:+: href)
    (h4 : ¬ S "docs?rep=" <:+: href)
    (h5 : ¬ S "?rep=" <+: href)
    (h6 : ¬(href = S "." ∨ href = S "./" ∨ href = S "index" ∨
      href = S "index.html"))
    (h7 : ¬(href = S "docs" ∨ href = S "docs.html"))
    (h8 : ¬(href = S "recent" ∨ href = S "agenda" ∨ href = S "mail" ∨
      href = S "notescolles" ∨ href = S "prefs" ∨ href = S "blogcdp"))
    (h9 : S "notescolles?" <+: href ∨ S ".?" <+: href) :
    fix_link href = S "#" := by
  unfold fix_link
  rw [if_neg h1, if_neg h2, if_neg h3, if_neg h4, if_neg h5, if_neg h6,
    if_neg h7, if_neg h8, if_pos h9]
theorem fix_link_other {href : List Char}
    (h1 : ¬(href = [] ∨ S "#" <+: href ∨ S "javascript:" <+: href))
    (h2 : ¬(S "assets/" <+: href ∨ S "fichiers/" <+: href))
    (h3 : ¬ S "download?id=" <:+: href)
    (h4 : ¬ S "docs?rep=" <:+: href)
    (h5 : ¬ S "?rep=" <+: href)
    (h6 : ¬(href = S "." ∨ href = S "./" ∨ href = S "index" ∨
      href = S "index.html"))
    (h7 : ¬(href = S "docs" ∨ href = S "docs.html"))
    (h8 : ¬(href = S "recent" ∨ href = S "agenda" ∨ href = S "mail" ∨
      href = S "notescolles" ∨ href = S "prefs" ∨ href = S "blogcdp"))
    (h9 : ¬(S "notescolles?" <+: href ∨ S ".?" <+: href)) :
    fix_link href = href := by
  unfold fix_link
  rw [if_neg h1, if_neg h2, if_neg h3, if_neg h4, if_neg h5, if_neg h6,
    if_neg h7, if_neg h8, if_neg h9]
/-! Every value `fix_link` can output is a fixed point of `fix_link`,
which gives idempotence of the rewriting pass. -/

theorem fix_link_fichiers_fixpoint (t : List Char) :
    fix_link (S "fichiers/" ++ t) = S "fichiers/" ++ t := by
  refine fix_link_local ?_ (Or.inr (List.prefix_append _ _))
  simp [S]
theorem fix_link_docs_rep_fixpoint {X : List Char}
    (hX1 : ¬ S "rep=" <:+: X) (hX2 : ¬ S "download?id=" <:+: X) :
    fix_link (S "docs_rep_" ++ (X ++ S ".html")) =
      S "docs_rep_" ++ (X ++ S ".html") := by
  have h3 : ¬ S "download?id=" <:+: S "docs_rep_" ++ (X ++ S ".html") := by
    intro h
    rcases infix_append_of_no_left_straddle (by decide) h with h | h
    · revert h; decide
    · rcases infix_append_of_no_right_straddle (by decide) h with h | h
      · exact hX2 h
      · revert h; decide
  have h4 : ¬ S "docs?rep=" <:+: S "docs_rep_" ++ (X ++ S ".html") := by
    intro h
    rcases infix_append_of_no_left_straddle (by decide) h with h | h
    · revert h; decide
    · rcases infix_append_of_no_right_straddle (by decide) h with h | h
      · exact hX1 ((show S "rep=" <:+: S "docs?rep=" by decide).trans h)
      · revert h; decide
  refine fix_link_other ?_ ?_ h3 h4 ?_ ?_ ?_ ?_ ?_ <;> simp [S]
theorem fix_link_idem (href : List Char) :
    fix_link (fix_link href) = fix_link href := by
  by_cases h1 : (href = [] ∨ S "#" <+: href ∨ S "javascript:" <+: href)
  · rw [fix_link_special h1, fix_link_special h1]
  · by_cases h2 : (S "assets/" <+: href ∨ S "fichiers/" <+: href)
    · rw [fix_link_local h1 h2, fix_link_local h1 h2]
    · by_cases h3 : (S "download?id=" <:+: href)
      · rw [fix_link_download h1 h2 h3]
        exact fix_link_fichiers_fixpoint _
      · have hpre : repIdOf href <+: (pySplit href (S "rep=")).getLastD [] :=
          pySplit_head_isPre ((pySplit href (S "rep=")).getLastD []) (S "&")
        have hX1 : ¬ S "rep=" <:+: repIdOf href := fun h =>
          pySplit_getLast_clean href (by decide) (h.trans hpre.isInfix)
        have hX2 : ¬ S "download?id=" <:+: repIdOf href := fun h =>
          h3 (h.trans (hpre.isInfix.trans
            (pySplit_getLast_suffix href (S "rep=")).isInfix))
        by_cases h4 : (S "docs?rep=" <:+: href)
        · rw [fix_link_docsrep h1 h2 h3 h4]
          exact fix_link_docs_rep_fixpoint hX1 hX2
        · by_cases h5 : (S "?rep=" <+: href)
          · rw [fix_link_qrep h1 h2 h3 h4 h5]
            exact fix_link_docs_rep_fixpoint hX1 hX2
          · by_cases h6 : (href = S "." ∨ href = S "./" ∨ href = S "index" ∨
              href = S "index.html")
            · rw [fix_link_index h1 h2 h3 h4 h5 h6]; decide
            · by_cases h7 : (href = S "docs" ∨ href = S "docs.html")
              · rw [fix_link_docspage h1 h2 h3 h4 h5 h6 h7]; decide
              · by_cases h8 : (href = S "recent" ∨ href = S "agenda" ∨
                  href = S "mail" ∨ href = S "notescolles" ∨
                  href = S "prefs" ∨ href = S "blogcdp")
                · rw [fix_link_offline h1 h2 h3 h4 h5 h6 h7 h8]; decide
                · by_cases h9 : (S "notescolles?" <+: href ∨ S ".?" <+: href)
                  · rw [fix_link_offlineq h1 h2 h3 h4 h5 h6 h7 h8 h9]; decide
                  · rw [fix_link_other h1 h2 h3 h4 h5 h6 h7 h8 h9,
                      fix_link_other h1 h2 h3 h4 h5 h6 h7 h8 h9]
theorem fix_css_idem (h : List Char) : fix_css (fix_css h) = fix_css h := by
  by_cases hc : S "css/" <+: h
  · have h1 : fix_css h = S "assets/" ++ h := by unfold fix_css; rw [if_pos hc]
    rw [h1]
    unfold fix_css
    rw [if_neg (by simp [S])]
  · have h1 : fix_css h = h := by unfold fix_css; rw [if_neg hc]
    rw [h1, h1]
theorem fix_js_idem (h : List Char) : fix_js (fix_js h) = fix_js h := by
  by_cases hc : S "js/" <+: h
  · have h1 : fix_js h = S "assets/" ++ h := by unfold fix_js; rw [if_pos hc]
    rw [h1]
    unfold fix_js
    rw [if_neg (by simp [S])]
  · have h1 : fix_js h = h := by unfold fix_js; rw [if_neg hc]
    rw [h1, h1]
theorem fix_html_links_idem (p : PageLinks) :
    fix_html_links (fix_html_links p) = fix_html_links p := by
  unfold fix_html_links
  simp only [List.map_map]
  congr 1
  · exact List.map_congr_left fun a _ => fix_css_idem a
  · exact List.map_congr_left fun a _ => fix_js_idem a
  · exact List.map_congr_left fun a _ => fix_link_idem a
theorem alnum_not_mem {r : List Char} (hr : ∀ c ∈ r, c.isAlphanum)
    {c : Char} (hc : ¬ c.isAlphanum = true) : c ∉ r :=
  fun hm => hc (hr c hm)
/-- A needle containing a character that alphanumeric text cannot contain
does not occur in a literal followed by alphanumeric text, provided it
occurs neither inside the literal nor straddling the boundary. -/
theorem not_infix_lit_alnum {needle a q : List Char} (c : Char)
    (hc : c ∈ needle) (hca : ¬ c.isAlphanum = true)
    (hq : ∀ x ∈ q, x.isAlphanum)
    (hL : ∀ k < needle.length, 0 < k → ¬ (needle.take k <:+ a))
    (hin : ¬ needle <:+: a) : ¬ needle <:+: a ++ q := by
  intro h
  rcases infix_append_of_no_left_straddle hL h with h | h
  · exact hin h
  · exact hca (hq c (h.sublist.subset hc))
theorem splitOnce_docsrep (r : List Char) :
    splitOnce (S "docs?rep=" ++ r) (S "rep=") = some (S "docs?", r) := by
  simp [splitOnce, S]
theorem splitOnce_qrep (r : List Char) :
    splitOnce (S "?rep=" ++ r) (S "rep=") = some (S "?", r) := by
  simp [splitOnce, S]
theorem splitOnce_download (f : List Char) :
    splitOnce (S "download?id=" ++ f) (S "id=") = some (S "download?", f) := by
  simp [splitOnce, S]
theorem pySplit_alnum_rep {r : List Char} (hr : ∀ c ∈ r, c.isAlphanum) :
    pySplit r (S "rep=") = [r] :=
  pySplit_of_none (splitOnce_eq_none
    (not_infix_of_mem_not_mem (show ('=' : Char) ∈ S "rep=" by decide)
      (alnum_not_mem hr (by decide))))
theorem pySplit_alnum_amp {r : List Char} (hr : ∀ c ∈ r, c.isAlphanum) :
    pySplit r (S "&") = [r] :=
  pySplit_of_none (splitOnce_eq_none
    (not_infix_of_mem_not_mem (show ('&' : Char) ∈ S "&" by decide)
      (alnum_not_mem hr (by decide))))
theorem repIdOf_docsrep {r : List Char} (hr : ∀ c ∈ r, c.isAlphanum) :
    repIdOf (S "docs?rep=" ++ r) = r := by
  unfold repIdOf
  rw [pySplit_of_some (by decide) (splitOnce_docsrep r), pySplit_alnum_rep hr]
  have h5 : (S "docs?" :: [r]).getLastD [] = r := by simp
  rw [h5, pySplit_alnum_amp hr]
  rfl
theorem repIdOf_qrep {r : List Char} (hr : ∀ c ∈ r, c.isAlphanum) :
    repIdOf (S "?rep=" ++ r) = r := by
  unfold repIdOf
  rw [pySplit_of_some (by decide) (splitOnce_qrep r), pySplit_alnum_rep hr]
  have h5 : (S "?" :: [r]).getLastD [] = r := by simp
  rw [h5, pySplit_alnum_amp hr]
  rfl
theorem fileIdOf_download {f : List Char} (hf : ∀ c ∈ f, c.isAlphanum) :
    fileIdOf (S "download?id=" ++ f) = f := by
  unfold fileIdOf
  have h3 : pySplit f (S "id=") = [f] :=
    pySplit_of_none (splitOnce_eq_none
      (not_infix_of_mem_not_mem (show ('=' : Char) ∈ S "id=" by decide)
        (alnum_not_mem hf (by decide))))
  rw [pySplit_of_some (by decide) (splitOnce_download f), h3]
  have h5 : (S "download?" :: [f]).getLastD [] = f := by simp
  rw [h5, pySplit_alnum_amp hf]
  rfl
/-- Claim C4: the link rewriter maps every href of the form docs?rep=r,
and the relative shorthand ?rep=r, to exactly docs_rep_r.html, and every
href of the form download?id=f to exactly fichiers/f, the alias form
named after the raw identifier.  The identifiers r and f are alphanumeric
tokens, the shape the crawler itself produces when it extracts them from
query strings. -/
theorem claim_C4 (r f : List Char) (hr : ∀ c ∈ r, c.isAlphanum)
    (hf : ∀ c ∈ f, c.isAlphanum) :
    fix_link (S "docs?rep=" ++ r) = S "docs_rep_" ++ r ++ S ".html" ∧
    fix_link (S "?rep=" ++ r) = S "docs_rep_" ++ r ++ S ".html" ∧
    fix_link (S "download?id=" ++ f) = S "fichiers/" ++ f := by
  refine ⟨?_, ?_, ?_⟩
  · rw [fix_link_docsrep (by simp [S]) (by simp [S])
      (not_infix_lit_alnum '?' (by decide) (by decide) hr (by decide)
        (by decide))
      ⟨[], r, by simp⟩, repIdOf_docsrep hr]
  · rw [fix_link_qrep (by simp [S]) (by simp [S])
      (not_infix_lit_alnum '?' (by decide) (by decide) hr (by decide)
        (by decide))
      (not_infix_lit_alnum '?' (by decide) (by decide) hr (by decide)
        (by decide))
      (List.prefix_append _ _), repIdOf_qrep hr]
  · rw [fix_link_download (by simp [S]) (by simp [S]) ⟨[], f, by simp⟩,
      fileIdOf_download hf]
/-- Witness for claim C4 at the concrete identifiers of the spec
scenario: rep 42 and file ABC123. -/
theorem claim_C4_witness :
    ((∀ c ∈ S "42", c.isAlphanum) ∧ (∀ c ∈ S "ABC123", c.isAlphanum)) ∧
    (fix_link (S "docs?rep=" ++ S "42") =
        S "docs_rep_" ++ S "42" ++ S ".html" ∧
      fix_link (S "?rep=" ++ S "42") =
        S "docs_rep_" ++ S "42" ++ S ".html" ∧
      fix_link (S "download?id=" ++ S "ABC123") =
        S "fichiers/" ++ S "ABC123") :=
  ⟨⟨by decide, by decide⟩, claim_C4 (S "42") (S "ABC123") (by decide)
    (by decide)⟩
/-- Claim C5: link rewriting is idempotent, both per href value and per
page: a second application of the rewriting pass changes nothing. -/
theorem claim_C5 :
    (∀ href : List Char, fix_link (fix_link href) = fix_link href) ∧
    ∀ p : PageLinks, fix_html_links (fix_html_links p) = fix_html_links p :=
  ⟨fix_link_idem, fix_html_links_idem⟩
/-- Counterexample to claim C6 as stated: the query-parameterized variant
agenda?week=1 of the unavailable endpoint agenda is not rewritten to the
empty anchor; fix_link returns it unchanged. -/
theorem claim_C6_counterexample :
    fix_link (S "agenda?week=1") = S "agenda?week=1" ∧
    S "agenda?week=1" ≠ S "#" := by decide
/-- Claim C6 as amended: each of the six unavailable endpoints rewrites
to the empty anchor when matched exactly, but among query-parameterized
variants only those of notescolles, plus the relative form starting with
a dot and a question mark, rewrite to the empty anchor; variants of the
other endpoints such as agenda?week=1 pass through unchanged.  The query
part q is an alphanumeric token. -/
theorem claim_C6 (q : List Char) (hq : ∀ c ∈ q, c.isAlphanum) :
    fix_link (S "recent") = S "#" ∧ fix_link (S "agenda") = S "#" ∧
    fix_link (S "mail") = S "#" ∧ fix_link (S "notescolles") = S "#" ∧
    fix_link (S "prefs") = S "#" ∧ fix_link (S "blogcdp") = S "#" ∧
    fix_link (S "notescolles?" ++ q) = S "#" ∧
    fix_link (S ".?" ++ q) = S "#" ∧
    fix_link (S "agenda?" ++ q) = S "agenda?" ++ q := by
  refine ⟨by decide, by decide, by decide, by decide, by decide, by decide,
    ?_, ?_, ?_⟩
  · exact fix_link_offlineq (by simp [S]) (by simp [S])
      (not_infix_lit_alnum '?' (by decide) (by decide) hq (by decide)
        (by decide))
      (not_infix_lit_alnum '?' (by decide) (by decide) hq (by decide)
        (by decide))
      (by simp [S]) (by simp [S]) (by simp [S]) (by simp [S])
      (Or.inl (List.prefix_append _ _))
  · exact fix_link_offlineq (by simp [S]) (by simp [S])
      (not_infix_lit_alnum '?' (by decide) (by decide) hq (by decide)
        (by decide))
      (not_infix_lit_alnum '?' (by decide) (by decide) hq (by decide)
        (by decide))
      (by simp [S]) (by simp [S]) (by simp [S]) (by simp [S])
      (Or.inr (List.prefix_append _ _))
  · exact fix_link_other (by simp [S]) (by simp [S])
      (not_infix_lit_alnum '?' (by decide) (by decide) hq (by decide)
        (by decide))
      (not_infix_lit_alnum '?' (by decide) (by decide) hq (by decide)
        (by decide))
      (by simp [S]) (by simp [S]) (by simp [S]) (by simp [S]) (by simp [S])
/-- Witness for the amended claim C6 at the concrete query week1. -/
theorem claim_C6_witness :
    (∀ c ∈ S "week1", c.isAlphanum) ∧
    (fix_link (S "recent") = S "#" ∧ fix_link (S "agenda") = S "#" ∧
      fix_link (S "mail") = S "#" ∧ fix_link (S "notescolles") = S "#" ∧
      fix_link (S "prefs") = S "#" ∧ fix_link (S "blogcdp") = S "#" ∧
      fix_link (S "notescolles?" ++ S "week1") = S "#" ∧
      fix_link (S ".?" ++ S "week1") = S "#" ∧
      fix_link (S "agenda?" ++ S "week1") = S "agenda?" ++ S "week1") :=
  ⟨by decide, claim_C6 (S "week1") (by decide)⟩
example : safe_title (S "Exam Subject #3 (2024).pdf") =
    S "Exam Subject 3 2024.pdf" := by decide
theorem collapseWsGo_mem {l : List Char} {c : Char} :
    ∀ {b : Bool}, c ∈ collapseWsGo b l →
      c = ' ' ∨ (c ∈ l ∧ pyIsSpace c = false) := by
  induction l with
  | nil => intro b h; simp [collapseWsGo] at h
  | cons d t ih =>
    intro b h
    rw [collapseWsGo] at h
    by_cases hd : pyIsSpace d
    · rw [if_pos hd] at h
      cases b with
      | true =>
        rw [if_pos rfl] at h
        rcases ih h with h1 | ⟨h1, h2⟩
        · exact Or.inl h1
        · exact Or.inr ⟨List.mem_cons_of_mem d h1, h2⟩
      | false =>
        rw [if_neg (by simp)] at h
        rcases List.mem_cons.1 h with h1 | h1
        · exact Or.inl h1
        · rcases ih h1 with h2 | ⟨h2, h3⟩
          · exact Or.inl h2
          · exact Or.inr ⟨List.mem_cons_of_mem d h2, h3⟩
    · rw [if_neg hd] at h
      rcases List.mem_cons.1 h with h1 | h1
      · exact Or.inr ⟨by rw [h1]; exact List.mem_cons_self d t,
          by rw [h1]; simpa using hd⟩
      · rcases ih h1 with h2 | ⟨h2, h3⟩
        · exact Or.inl h2
        · exact Or.inr ⟨List.mem_cons_of_mem d h2, h3⟩
theorem collapseWsGo_chain (l : List Char) :
    ∀ b : Bool, NoWsRun (collapseWsGo b l) ∧
      (b = true → ∀ c, (collapseWsGo b l).head? = some c →
        pyIsSpace c = false) := by
  induction l with
  | nil =>
    intro b
    constructor
    · exact List.chain'_nil
    · intro _ c hc; simp [collapseWsGo] at hc
  | cons d t ih =>
    intro b
    by_cases hd : pyIsSpace d
    · cases b with
      | true =>
        rw [collapseWsGo, if_pos hd, if_pos rfl]
        refine ⟨(ih true).1, fun _ => (ih true).2 rfl⟩
      | false =>
        rw [collapseWsGo, if_pos hd, if_neg (by simp)]
        constructor
        · rw [NoWsRun, List.chain'_cons']
          refine ⟨?_, (ih true).1⟩
          intro h hc hand
          exact absurd ((ih true).2 rfl h hc) (by simp [hand.2])
        · intro hfalse; exact absurd hfalse (by simp)
    · rw [collapseWsGo, if_neg hd]
      constructor
      · rw [NoWsRun, List.chain'_cons']
        refine ⟨?_, (ih false).1⟩
        intro h _ hand
        exact absurd hand.1 (by simpa using hd)
      · intro _ c hc
        rw [List.head?_cons, Option.some.injEq] at hc
        rw [← hc]
        simpa using hd
theorem collapseWs_chain (l : List Char) : NoWsRun (collapseWs l) :=
  (collapseWsGo_chain l false).1
theorem pyStrip_isInfix (l : List Char) : pyStrip l <:+: l := by
  unfold pyStrip
  have h1 : (l.dropWhile fun c => pyIsSpace c) <:+ l := List.dropWhile_suffix _
  have h2 : ((l.dropWhile fun c => pyIsSpace c).reverse.dropWhile fun c =>
      pyIsSpace c) <:+ (l.dropWhile fun c => pyIsSpace c).reverse :=
    List.dropWhile_suffix _
  have h3 : ((l.dropWhile fun c => pyIsSpace c).reverse.dropWhile fun c =>
      pyIsSpace c).reverse <+: (l.dropWhile fun c => pyIsSpace c) :=
    List.reverse_suffix.1 (by simpa using h2)
  exact h3.isInfix.trans h1.isInfix
theorem pyStrip_subset (l : List Char) : pyStrip l ⊆ l :=
  (pyStrip_isInfix l).sublist.subset
theorem safe_title_chars (t : List Char) : ∀ c ∈ safe_title t, slugChar c := by
  intro c hc
  have hx : ∀ x ∈ pyStrip (collapseWs (stripIllegal t)), slugChar x := by
    intro x hxs
    have hcol := pyStrip_subset _ hxs
    rcases collapseWsGo_mem hcol with h1 | ⟨h1, h2⟩
    · rw [h1]; decide
    · have hkeep := (List.mem_filter.1 h1).2
      simp only [pyIsWord, Char.isAlphanum, h2, Bool.or_eq_true,
        decide_eq_true_eq, Bool.false_eq_true, false_or, or_false] at hkeep
      unfold slugChar
      tauto
  unfold safe_title truncate200 at hc
  split at hc
  · rcases List.mem_append.1 hc with h1 | h1
    · exact hx c (List.take_subset _ _ h1)
    · have hdot : c = '.' := by
        simpa [S] using h1
      rw [hdot]; decide
  · exact hx c hc
theorem safe_title_noRun (t : List Char) : NoWsRun (safe_title t) := by
  have hx : NoWsRun (pyStrip (collapseWs (stripIllegal t))) :=
    List.Chain'.infix (collapseWs_chain (stripIllegal t))
      (pyStrip_isInfix _)
  unfold safe_title truncate200
  split
  · rw [NoWsRun, List.chain'_append]
    refine ⟨?_, ?_, ?_⟩
    · exact List.Chain'.infix hx
        (List.IsPrefix.isInfix ⟨_, List.take_append_drop 197 _⟩)
    · show List.Chain' _ ['.', '.', '.']
      refine List.chain'_cons.2 ⟨?_, List.chain'_cons.2
        ⟨?_, List.chain'_singleton _⟩⟩ <;>
        exact fun h => absurd h.1 (by decide)
    · intro x _ y hy hand
      have hyd : '.' = y := by simpa [S] using hy
      rw [← hyd] at hand
      exact absurd hand.2 (by decide)
  · exact hx
theorem safe_title_len (t : List Char) : (safe_title t).length ≤ 200 := by
  unfold safe_title truncate200
  split
  · simp only [List.length_append, List.length_take]
    have : (S "...").length = 3 := by decide
    omega
  · omega
theorem withExt_suffix (s : List Char) {ext : List Char} (hne : ext ≠ []) :
    ext <:+ withExt s ext := by
  unfold withExt
  by_cases hsuf : ext <:+ s
  · rw [if_neg (by simp [hsuf])]
    exact hsuf
  · rw [if_pos ⟨hsuf, hne⟩]
    exact List.suffix_append s ext
example : normalize_url (S "ma-classe") =
    S "https://cahier-de-prepa.fr/ma-classe/" := by decide
example : normalize_url (S "ma-classe/") =
    S "https://cahier-de-prepa.fr/ma-classe/" := by decide
example : normalize_url (S "cahier-de-prepa.fr/ma-classe/") =
    S "https://cahier-de-prepa.fr/ma-classe/" := by decide
example : normalize_url (S "http://cahier-de-prepa.fr/ma-classe") =
    S "https://cahier-de-prepa.fr/ma-classe/" := by decide
example : normalize_url (S "https://cahier-de-prepa.fr/ma-classe/") =
    S "https://cahier-de-prepa.fr/ma-classe/" := by decide
example : normalize_url [] = S "https://cahier-de-prepa.fr//" := by decide
theorem intercalate_singleton (sep x : List Char) :
    List.intercalate sep [x] = x := by
  simp [List.intercalate]
theorem intercalate_cons_of_ne_nil {L : List (List Char)} (h : L ≠ [])
    (sep x : List Char) :
    List.intercalate sep (x :: L) = x ++ sep ++ List.intercalate sep L := by
  cases L with
  | nil => exact absurd rfl h
  | cons y zs => simp [List.intercalate, List.intersperse]
theorem pyReplace_of_none {s old new : List Char}
    (h : splitOnce s old = none) : pyReplace s old new = s := by
  unfold pyReplace
  rw [pySplit_of_none h, intercalate_singleton]
theorem pyReplace_step {s old new pre post : List Char} (hold : old ≠ [])
    (h : splitOnce s old = some (pre, post)) :
    pyReplace s old new = pre ++ new ++ pyReplace post old new := by
  unfold pyReplace
  rw [pySplit_of_some hold h, intercalate_cons_of_ne_nil pySplit_ne_nil]
theorem pyReplace_eq_nil {s old new : List Char} (hnew : new ≠ [])
    (hold : old ≠ []) (h : pyReplace s old new = []) : s = [] := by
  cases heq : splitOnce s old with
  | none => rw [pyReplace_of_none heq] at h; exact h
  | some pp =>
    obtain ⟨pre, post⟩ := pp
    rw [pyReplace_step hold heq] at h
    simp only [List.append_assoc, List.append_eq_nil] at h
    exact absurd h.2.1 hnew
theorem splitOnce_of_isPre {s sep : List Char} (hsep : sep ≠ [])
    (hp : sep <+: s) : splitOnce s sep = some ([], s.drop sep.length) := by
  cases s with
  | nil =>
    exact absurd (List.prefix_nil.1 hp) hsep
  | cons c t => rw [splitOnce, if_pos hp]
theorem getLast?_append_right {l l' : List Char} (h : l' ≠ []) :
    (l ++ l').getLast? = l'.getLast? := by
  rw [List.getLast?_append]
  cases hx : l'.getLast? with
  | none => exact absurd (List.getLast?_eq_none_iff.1 hx) h
  | some c => rfl
theorem dropWhile_head_not {p : Char → Bool} {l : List Char} {c : Char}
    (h : (l.dropWhile p).head? = some c) : p c = false := by
  induction l with
  | nil => simp [List.dropWhile] at h
  | cons a t ih =>
    rw [List.dropWhile_cons] at h
    split at h
    · exact ih h
    · rw [List.head?_cons, Option.some.injEq] at h
      rw [← h]
      rename_i hpa
      simpa using hpa
theorem dropWhile_eq_self_of_head {p : Char → Bool} {l : List Char}
    (h : ∀ c, l.head? = some c → p c = false) : l.dropWhile p = l := by
  cases l with
  | nil => rfl
  | cons a t =>
    rw [List.dropWhile_cons, if_neg]
    rw [h a rfl]
    simp
theorem rstripSlash_no_slash (l : List Char) :
    ∀ c, (rstripSlash l).getLast? = some c → c ≠ '/' := by
  intro c hc
  unfold rstripSlash at hc
  rw [List.getLast?_reverse] at hc
  have := dropWhile_head_not hc
  simpa using this
theorem pyStrip_eq_self {l : List Char}
    (h1 : ∀ c, l.head? = some c → pyIsSpace c = false)
    (h2 : ∀ c, l.getLast? = some c → pyIsSpace c = false) :
    pyStrip l = l := by
  unfold pyStrip
  rw [dropWhile_eq_self_of_head h1]
  rw [dropWhile_eq_self_of_head (by
    intro c hc
    rw [List.head?_reverse] at hc
    exact h2 c hc)]
  exact List.reverse_reverse l
theorem rstripSlash_eq_self {l : List Char}
    (h : ∀ c, l.getLast? = some c → c ≠ '/') : rstripSlash l = l := by
  unfold rstripSlash
  rw [dropWhile_eq_self_of_head (by
    intro c hc
    rw [List.head?_reverse] at hc
    simpa using h c hc)]
  exact List.reverse_reverse l
theorem rstripSlash_append_slash {R : List Char}
    (h : ∀ c, R.getLast? = some c → c ≠ '/') :
    rstripSlash (R ++ S "/") = R := by
  unfold rstripSlash
  have : (R ++ S "/").reverse = '/' :: R.reverse := by
    show (R ++ ['/']).reverse = '/' :: R.reverse
    simp
  rw [this, List.dropWhile_cons, if_pos (by simp)]
  rw [dropWhile_eq_self_of_head (by
    intro c hc
    rw [List.head?_reverse] at hc
    simpa using h c hc)]
  exact List.reverse_reverse R
/-- The https replacement of normalize_url never ends in a slash when its
input does not: the last segment of the split is a suffix of the input. -/
theorem replace_http_no_slash (s : List Char)
    (hs : ∀ c, s.getLast? = some c → c ≠ '/') :
    ∀ c, (pyReplace s (S "http://") (S "https://")).getLast? = some c →
      c ≠ '/' := by
  cases heq : splitOnce s (S "http://") with
  | none => rw [pyReplace_of_none heq]; exact hs
  | some pp =>
    obtain ⟨pre, post⟩ := pp
    rw [pyReplace_step (by decide) heq]
    by_cases hpost : post = []
    · exfalso
      have hsplit := splitOnce_append heq
      rw [hpost, List.append_nil] at hsplit
      have hlast : s.getLast? = some '/' := by
        rw [hsplit, getLast?_append_right (by decide)]
        decide
      exact hs '/' hlast rfl
    · have hPne : pyReplace post (S "http://") (S "https://") ≠ [] :=
        fun hnil => hpost (pyReplace_eq_nil (by decide) (by decide) hnil)
      intro c hc
      rw [List.append_assoc, getLast?_append_right (by
          intro hx
          rw [List.append_eq_nil] at hx
          exact hPne hx.2),
        getLast?_append_right hPne] at hc
      have hlt : post.length < s.length := splitOnce_post_lt (by decide) heq
      have hs2 : ∀ d, post.getLast? = some d → d ≠ '/' := by
        intro d hd
        have : s.getLast? = some d := by
          rw [splitOnce_append heq, List.append_assoc,
            getLast?_append_right (by
              intro hx
              rw [List.append_eq_nil] at hx
              exact hpost hx.2),
            getLast?_append_right hpost]
          exact hd
        exact hs d this
      exact replace_http_no_slash post hs2 c hc
termination_by s.length
/-- Scanning for http off the front of the host literal: the first
occurrence, if any, lies beyond the literal. -/
theorem splitOnce_lit_append (z : List Char) :
    splitOnce (S "cahier-de-prepa.fr/" ++ z) (S "http://") =
      (splitOnce z (S "http://")).map
        (fun pp => (S "cahier-de-prepa.fr/" ++ pp.1, pp.2)) := by
  cases h : splitOnce z (S "http://") with
  | none =>
    have h2 : splitOnce z ['h', 't', 't', 'p', ':', '/', '/'] = none := h
    simp [splitOnce, S, h2]
  | some pp =>
    obtain ⟨pre, post⟩ := pp
    have h2 : splitOnce z ['h', 't', 't', 'p', ':', '/', '/'] =
        some (pre, post) := h
    simp [splitOnce, S, h2]
/-- The host literal survives the https replacement at the front. -/
theorem replace_lit_pre (z : List Char) :
    S "cahier-de-prepa.fr/" <+:
      pyReplace (S "cahier-de-prepa.fr/" ++ z) (S "http://")
        (S "https://") := by
  cases h : splitOnce z (S "http://") with
  | none =>
    have h2 : splitOnce (S "cahier-de-prepa.fr/" ++ z) (S "http://") =
        none := by rw [splitOnce_lit_append, h]; rfl
    rw [pyReplace_of_none h2]
    exact List.prefix_append _ _
  | some pp =>
    obtain ⟨pre, post⟩ := pp
    have h2 : splitOnce (S "cahier-de-prepa.fr/" ++ z) (S "http://") =
        some (S "cahier-de-prepa.fr/" ++ pre, post) := by
      rw [splitOnce_lit_append, h]; rfl
    rw [pyReplace_step (by decide) h2]
    rw [List.append_assoc, List.append_assoc]
    exact List.prefix_append _ _
/-- A normalised URL, written as a slash-free part followed by one slash,
is a fixed point of normalize_url whenever the part carries the full
https host. -/
theorem normalize_url_fixpoint {R : List Char}
    (hA : S "https://cahier-de-prepa.fr/" <+: R)
    (hns : ∀ c, R.getLast? = some c → c ≠ '/') :
    normalize_url (R ++ S "/") = R ++ S "/" := by
  obtain ⟨rta, hra⟩ := hA
  have hh : (R ++ S "/").head? = some 'h' := by
    rw [← hra]
    rfl
  have hstrip : pyStrip (R ++ S "/") = R ++ S "/" := by
    refine pyStrip_eq_self ?_ ?_
    · intro c hc
      rw [hh, Option.some.injEq] at hc
      rw [← hc]
      decide
    · intro c hc
      rw [getLast?_append_right (by decide)] at hc
      have : c = '/' := by
        have : (S "/").getLast? = some '/' := by decide
        rw [this, Option.some.injEq] at hc
        exact hc.symm
      rw [this]
      decide
  have hr : rstripSlash (pyStrip (R ++ S "/")) = R := by
    rw [hstrip]
    exact rstripSlash_append_slash hns
  simp only [normalize_url, hr]
  rw [if_pos ⟨rta, hra⟩]
theorem siteChar_not_space {c : Char} (h : siteChar c) :
    pyIsSpace c = false := by
  rcases h with h | h
  · by_contra hsp
    rw [Bool.not_eq_false] at hsp
    have hm : ((((c = ' ' ∨ c = '\t') ∨ c = '\n') ∨ c = '\r') ∨
        c = Char.ofNat 11) ∨ c = Char.ofNat 12 := by
      simpa [pyIsSpace] using hsp
    rcases hm with ((((rfl | rfl) | rfl) | rfl) | rfl) | rfl <;>
      exact absurd h (by decide)
  · rw [h]; decide
theorem siteChar_not_slash {c : Char} (h : siteChar c) : c ≠ '/' := by
  intro he
  rw [he] at h
  rcases h with h | h
  · exact absurd h (by decide)
  · exact absurd h (by decide)
theorem strip_lit_site {lit site : List Char} (hsite : site ≠ [])
    (hchars : ∀ c ∈ site, siteChar c)
    (hhead : ∀ c, (lit ++ site).head? = some c → pyIsSpace c = false) :
    rstripSlash (pyStrip (lit ++ site)) = lit ++ site := by
  have hlast : ∀ c, (lit ++ site).getLast? = some c → siteChar c := by
    intro c hc
    rw [getLast?_append_right hsite] at hc
    exact hchars c (List.mem_of_getLast?_eq_some hc)
  rw [pyStrip_eq_self hhead fun c hc => siteChar_not_space (hlast c hc)]
  exact rstripSlash_eq_self fun c hc => siteChar_not_slash (hlast c hc)
/-- Output characterization of normalize_url on inputs that keep at least
one character after stripping: the result is a slash-free normalised part
carrying the https host, followed by one slash. -/
theorem normalize_url_decomp (s : List Char)
    (hne : rstripSlash (pyStrip s) ≠ []) :
    ∃ R, normalize_url s = R ++ S "/" ∧
      S "https://cahier-de-prepa.fr/" <+: R ∧
      ∀ c, R.getLast? = some c → c ≠ '/' := by
  have hunos : ∀ c, (rstripSlash (pyStrip s)).getLast? = some c → c ≠ '/' :=
    rstripSlash_no_slash _
  by_cases c1 : S "https://cahier-de-prepa.fr/" <+: rstripSlash (pyStrip s)
  · refine ⟨rstripSlash (pyStrip s), ?_, c1, hunos⟩
    simp only [normalize_url]
    rw [if_pos c1]
  · by_cases c2 : S "http://cahier-de-prepa.fr/" <+: rstripSlash (pyStrip s)
    · refine ⟨pyReplace (rstripSlash (pyStrip s)) (S "http://")
        (S "https://"), ?_, ?_, replace_http_no_slash _ hunos⟩
      · simp only [normalize_url]
        rw [if_neg c1, if_pos c2]
      · obtain ⟨w2, hw⟩ := c2
        have hsplit : splitOnce (rstripSlash (pyStrip s)) (S "http://") =
            some ([], S "cahier-de-prepa.fr/" ++ w2) := by
          rw [← hw,
            show S "http://cahier-de-prepa.fr/" =
              S "http://" ++ S "cahier-de-prepa.fr/" from by decide,
            List.append_assoc,
            splitOnce_of_isPre (by decide) (List.prefix_append _ _),
            List.drop_left]
        rw [pyReplace_step (by decide) hsplit]
        obtain ⟨t2, ht2⟩ := replace_lit_pre w2
        refine ⟨t2, ?_⟩
        rw [show S "https://cahier-de-prepa.fr/" =
          S "https://" ++ S "cahier-de-prepa.fr/" from by decide]
        simp only [List.nil_append, List.append_assoc]
        rw [ht2]
    · by_cases c3 : S "cahier-de-prepa.fr/" <+: rstripSlash (pyStrip s)
      · refine ⟨S "https://" ++ rstripSlash (pyStrip s), ?_, ?_, ?_⟩
        · simp only [normalize_url]
          rw [if_neg c1, if_neg c2, if_pos c3]
        · obtain ⟨t3, ht3⟩ := c3
          refine ⟨t3, ?_⟩
          rw [show S "https://cahier-de-prepa.fr/" =
            S "https://" ++ S "cahier-de-prepa.fr/" from by decide,
            List.append_assoc, ht3]
        · intro c hc
          rw [getLast?_append_right hne] at hc
          exact hunos c hc
      · refine ⟨S "https://cahier-de-prepa.fr/" ++ rstripSlash (pyStrip s),
          ?_, List.prefix_append _ _, ?_⟩
        · simp only [normalize_url]
          rw [if_neg c1, if_neg c2, if_neg c3]
        · intro c hc
          rw [getLast?_append_right hne] at hc
          exact hunos c hc
theorem normalize_url_idem {s : List Char}
    (hne : rstripSlash (pyStrip s) ≠ []) :
    normalize_url (normalize_url s) = normalize_url s := by
  obtain ⟨R, ho, hA, hns⟩ := normalize_url_decomp s hne
  rw [ho, normalize_url_fixpoint hA hns]
theorem normalize_url_slash (s : List Char) : S "/" <:+ normalize_url s := by
  simp only [normalize_url]
  split_ifs <;> exact List.suffix_append _ _
theorem normalize_url_shapes {site : List Char} (hsite : site ≠ [])
    (hchars : ∀ c ∈ site, siteChar c) :
    normalize_url (S "https://cahier-de-prepa.fr/" ++ site) =
      S "https://cahier-de-prepa.fr/" ++ site ++ S "/" ∧
    normalize_url (S "http://cahier-de-prepa.fr/" ++ site) =
      S "https://cahier-de-prepa.fr/" ++ site ++ S "/" ∧
    normalize_url (S "cahier-de-prepa.fr/" ++ site) =
      S "https://cahier-de-prepa.fr/" ++ site ++ S "/" ∧
    normalize_url site =
      S "https://cahier-de-prepa.fr/" ++ site ++ S "/" := by
  have hcolon : (':' : Char) ∉ site := fun hm =>
    absurd (hchars ':' hm) (by decide)
  have hslash : ('/' : Char) ∉ site := fun hm =>
    absurd (hchars '/' hm) (by decide)
  refine ⟨?_, ?_, ?_, ?_⟩
  · have hhead : ∀ c, (S "https://cahier-de-prepa.fr/" ++ site).head? =
        some c → pyIsSpace c = false := by
      intro c hc
      have h0 : (S "https://cahier-de-prepa.fr/" ++ site).head? =
          some 'h' := rfl
      rw [h0, Option.some.injEq] at hc
      rw [← hc]
      decide
    have hu := strip_lit_site hsite hchars hhead
    simp only [normalize_url, hu]
    rw [if_pos (List.prefix_append _ _)]
  · have hhead : ∀ c, (S "http://cahier-de-prepa.fr/" ++ site).head? =
        some c → pyIsSpace c = false := by
      intro c hc
      have h0 : (S "http://cahier-de-prepa.fr/" ++ site).head? =
          some 'h' := rfl
      rw [h0, Option.some.injEq] at hc
      rw [← hc]
      decide
    have hu := strip_lit_site hsite hchars hhead
    simp only [normalize_url, hu]
    rw [if_neg (by simp [S]), if_pos (List.prefix_append _ _)]
    have hsplit : splitOnce (S "http://cahier-de-prepa.fr/" ++ site)
        (S "http://") = some ([], S "cahier-de-prepa.fr/" ++ site) := by
      rw [show S "http://cahier-de-prepa.fr/" =
          S "http://" ++ S "cahier-de-prepa.fr/" from by decide,
        List.append_assoc,
        splitOnce_of_isPre (by decide) (List.prefix_append _ _),
        List.drop_left]
    rw [pyReplace_step (by decide) hsplit]
    have hnone : splitOnce site (S "http://") = none :=
      splitOnce_eq_none (not_infix_of_mem_not_mem (by decide) hcolon)
    have h2 : splitOnce (S "cahier-de-prepa.fr/" ++ site) (S "http://") =
        none := by rw [splitOnce_lit_append, hnone]; rfl
    rw [pyReplace_of_none h2,
      show S "https://cahier-de-prepa.fr/" =
        S "https://" ++ S "cahier-de-prepa.fr/" from by decide]
    simp [List.append_assoc]
  · have hhead : ∀ c, (S "cahier-de-prepa.fr/" ++ site).head? =
        some c → pyIsSpace c = false := by
      intro c hc
      have h0 : (S "cahier-de-prepa.fr/" ++ site).head? = some 'c' := rfl
      rw [h0, Option.some.injEq] at hc
      rw [← hc]
      decide
    have hu := strip_lit_site hsite hchars hhead
    simp only [normalize_url, hu]
    rw [if_neg (by simp [S]), if_neg (by simp [S]),
      if_pos (List.prefix_append _ _),
      show S "https://cahier-de-prepa.fr/" =
        S "https://" ++ S "cahier-de-prepa.fr/" from by decide]
    simp [List.append_assoc]
  · have hu : rstripSlash (pyStrip site) = site := by
      have hlast : ∀ c, site.getLast? = some c → siteChar c := fun c hc =>
        hchars c (List.mem_of_getLast?_eq_some hc)
      have hhd : ∀ c, site.head? = some c → siteChar c := by
        intro c hc
        cases site with
        | nil => simp at hc
        | cons a t =>
          rw [List.head?_cons, Option.some.injEq] at hc
          rw [← hc]
          exact hchars a (List.mem_cons_self a t)
      rw [pyStrip_eq_self (fun c hc => siteChar_not_space (hhd c hc))
        (fun c hc => siteChar_not_space (hlast c hc))]
      exact rstripSlash_eq_self fun c hc => siteChar_not_slash (hlast c hc)
    simp only [normalize_url, hu]
    rw [if_neg (fun hp => hcolon (hp.sublist.subset (by decide))),
      if_neg (fun hp => hcolon (hp.sublist.subset (by decide))),
      if_neg (fun hp => hslash (hp.sublist.subset (by decide)))]
/-- Counterexample to claim C10 as stated: normalize_url is not
idempotent on the empty input.  The first pass returns the host followed
by two slashes; the second pass strips both slashes, no longer recognises
the https prefix, and wraps the whole URL again. -/
theorem claim_C10_counterexample :
    normalize_url (normalize_url []) ≠ normalize_url [] := by decide
/-- Claim C10 as amended: normalize_url always returns a string ending in
a slash, it maps each of the four documented input shapes to the
canonical https://cahier-de-prepa.fr/site/ form, and it is idempotent on
every input that still contains a character after stripping whitespace
and trailing slashes; on inputs reduced to nothing by that cleaning, such
as the empty string, a second application wraps the URL again.  Totality
holds by construction of the model. -/
theorem claim_C10 (s site : List Char) (hsite : site ≠ [])
    (hchars : ∀ c ∈ site, siteChar c)
    (hne : rstripSlash (pyStrip s) ≠ []) :
    (∀ x : List Char, S "/" <:+ normalize_url x) ∧
    normalize_url (normalize_url s) = normalize_url s ∧
    (normalize_url (S "https://cahier-de-prepa.fr/" ++ site) =
      S "https://cahier-de-prepa.fr/" ++ site ++ S "/" ∧
    normalize_url (S "http://cahier-de-prepa.fr/" ++ site) =
      S "https://cahier-de-prepa.fr/" ++ site ++ S "/" ∧
    normalize_url (S "cahier-de-prepa.fr/" ++ site) =
      S "https://cahier-de-prepa.fr/" ++ site ++ S "/" ∧
    normalize_url site =
      S "https://cahier-de-prepa.fr/" ++ site ++ S "/") :=
  ⟨normalize_url_slash, normalize_url_idem hne,
    normalize_url_shapes hsite hchars⟩
/-- Witness for the amended claim C10 at the concrete site ma-classe. -/
theorem claim_C10_witness :
    ((S "ma-classe" ≠ ([] : List Char)) ∧
      (∀ c ∈ S "ma-classe", siteChar c) ∧
      rstripSlash (pyStrip (S "ma-classe")) ≠ []) ∧
    ((∀ x : List Char, S "/" <:+ normalize_url x) ∧
    normalize_url (normalize_url (S "ma-classe")) =
      normalize_url (S "ma-classe") ∧
    (normalize_url (S "https://cahier-de-prepa.fr/" ++ S "ma-classe") =
      S "https://cahier-de-prepa.fr/" ++ S "ma-classe" ++ S "/" ∧
    normalize_url (S "http://cahier-de-prepa.fr/" ++ S "ma-classe") =
      S "https://cahier-de-prepa.fr/" ++ S "ma-classe" ++ S "/" ∧
    normalize_url (S "cahier-de-prepa.fr/" ++ S "ma-classe") =
      S "https://cahier-de-prepa.fr/" ++ S "ma-classe" ++ S "/" ∧
    normalize_url (S "ma-classe") =
      S "https://cahier-de-prepa.fr/" ++ S "ma-classe" ++ S "/")) :=
  ⟨⟨by decide, by decide, by decide⟩,
    claim_C10 (S "ma-classe") (S "ma-classe") (by decide) (by decide)
      (by decide)⟩
theorem dictInsert_keys {V : Type} (m : List (List Char × V))
    (k : List Char) (v : V) (h : KeysNodup m) :
    KeysNodup (dictInsert m k v) := by
  unfold dictInsert KeysNodup
  split
  · rw [List.map_map]
    have he : (Prod.fst ∘ fun p : List Char × V =>
        if p.1 = k then (k, v) else p) = Prod.fst := by
      funext p
      by_cases hp : p.1 = k <;> simp [Function.comp, hp]
    rw [he]
    exact h
  · rename_i hnone
    rw [List.map_append]
    refine List.Nodup.append h (List.nodup_singleton k) ?_
    intro a ha hb
    have hb2 : a = k := by simpa using hb
    subst hb2
    rw [Bool.not_eq_true, Option.not_isSome, Option.isNone_iff_eq_none,
      List.lookup_eq_none_iff] at hnone
    obtain ⟨p, hp, hpe⟩ := List.mem_map.1 ha
    exact absurd (by rw [hpe]; simp : (a == p.1) = true)
      (by simpa using hnone p hp)
theorem dictInsert_mem {V : Type} {m : List (List Char × V)}
    {k : List Char} {v : V} {p : List Char × V}
    (h : p ∈ dictInsert m k v) : p ∈ m ∨ p = (k, v) := by
  unfold dictInsert at h
  split at h
  · obtain ⟨q, hq, hqe⟩ := List.mem_map.1 h
    by_cases hqk : q.1 = k
    · right
      rw [← hqe, if_pos hqk]
    · left
      rw [← hqe, if_neg hqk]
      exact hq
  · rcases List.mem_append.1 h with h1 | h1
    · exact Or.inl h1
    · exact Or.inr (by simpa using h1)
theorem foldl_pres {α : Type} (P : St → Prop) (f : St → α → St)
    (hf : ∀ s a, P s → P (f s a)) :
    ∀ (l : List α) (s : St), P s → P (l.foldl f s) := by
  intro l
  induction l with
  | nil => intro s hs; exact hs
  | cons a t ih => intro s hs; exact ih (f s a) (hf s a hs)
theorem exploreList_pres (P : St → Prop)
    (f : List Char → List Char → St → St)
    (hf : ∀ a b s, P s → P (f a b s)) :
    ∀ (l : List (List Char × List Char)) (s : St),
      P s → P (exploreList f l s) := by
  intro l
  induction l with
  | nil => intro s hs; exact hs
  | cons sr rest ih =>
    intro s hs
    rw [exploreList]
    refine ih _ ?_
    split
    · exact hf _ _ _ hs
    · exact hs
theorem explore_pres (env : Env) (P : St → Prop)
    (hupd : ∀ (s : St) (x : List Char), P s →
      P { s with subpages_count := s.subpages_count + 1,
                 explore_log := s.explore_log ++ [x] })
    (hsave : ∀ d l s, P s → P (save_page env d l s))
    (hdl : ∀ f t r s, P s → P (download_file env f t r s).1) :
    ∀ (fuel : Nat) (d t : List Char) (s : St),
      P s → P (explore_repository env fuel d t s) := by
  intro fuel
  induction fuel with
  | zero => intro d t s hs; exact hs
  | succ n ih =>
    intro d t s hs
    rw [explore_repository]
    split
    · exact hs
    · refine exploreList_pres P _ (fun a b s2 hs2 => ih a b s2 hs2) _ _ ?_
      refine foldl_pres P _ (fun s2 fl hs2 => hdl fl.1 fl.2 t s2 hs2) _ _ ?_
      exact hsave d t _ (hupd s d hs)
theorem pollLoopGo_const {d : DlEnv} :
    ∀ (r i : Nat) (latest : Option DirEntry),
      (∀ j, i ≤ j → j < i + r → ∀ e ∈ d.snap j, e.name ∈ d.before) →
      pollLoopGo d i r latest = latest := by
  intro r
  induction r with
  | zero => intro i latest _; rfl
  | succ n ih =>
    intro i latest h
    rw [pollLoopGo]
    have hfe : ((d.snap i).filter fun e => ¬ e.name ∈ d.before) = [] := by
      rw [List.filter_eq_nil_iff]
      intro e he
      simpa using h i (Nat.le_refl i) (by omega) e he
    rw [hfe]
    show pollLoopGo d (i + 1) n latest = latest
    exact ih (i + 1) latest fun j hj1 hj2 e he => h j (by omega) (by omega) e he
theorem pollLoop_none {d : DlEnv}
    (h : ∀ j < 30, ∀ e ∈ d.snap j, e.name ∈ d.before) : pollLoop d = none :=
  pollLoopGo_const 30 0 none fun j _ h2 => h j (by omega)
/-!
Per-function preservation facts and the concrete runs used by the
claims.
-/

theorem save_page_file_mapping (env : Env) (d l : List Char) (st : St) :
    (save_page env d l st).file_mapping = st.file_mapping := by
  simp only [save_page]
  split
  · rfl
  · split <;> rfl
theorem download_file_visited (env : Env) (f t r : List Char) (st : St) :
    (download_file env f t r st).1.visited_repos = st.visited_repos := by
  simp only [download_file]
  split
  · rfl
  · split
    · rfl
    · split <;> rfl
theorem download_file_repo_mapping (env : Env) (f t r : List Char)
    (st : St) :
    (download_file env f t r st).1.repo_mapping = st.repo_mapping := by
  simp only [download_file]
  split
  · rfl
  · split
    · rfl
    · split <;> rfl
theorem download_file_keys (env : Env) (f t r : List Char) (st : St)
    (h : KeysNodup st.file_mapping) :
    KeysNodup (download_file env f t r st).1.file_mapping := by
  simp only [download_file]
  split
  · exact h
  · split
    · exact h
    · split
      · exact h
      · exact dictInsert_keys _ _ _ h
theorem save_page_P3 (env : Env) (d l : List Char) (st : St) (h : P3 st) :
    P3 (save_page env d l st) := by
  obtain ⟨h1, h2⟩ := h
  have hnd : ¬ d ∈ st.visited_repos →
      (st.visited_repos ++ [d]).Nodup := by
    intro hd
    refine List.Nodup.append h1 (List.nodup_singleton d) ?_
    intro a ha hb
    have : a = d := by simpa using hb
    subst this
    exact hd ha
  simp only [save_page]
  split
  · exact ⟨h1, h2⟩
  · rename_i hd
    split
    · exact ⟨hnd hd, h2⟩
    · refine ⟨hnd hd, ?_⟩
      intro p hp
      rcases dictInsert_mem hp with h3 | h3
      · exact h2 p h3
      · rw [h3]
theorem download_file_P3 (env : Env) (f t r : List Char) (st : St)
    (h : P3 st) : P3 (download_file env f t r st).1 := by
  constructor
  · rw [download_file_visited]
    exact h.1
  · intro p hp
    rw [download_file_repo_mapping] at hp
    exact h.2 p hp
/-- Counterexample to claim C1 as stated: a file identifier linked from
two different directories is downloaded once per encounter, so two
download attempts are triggered for F in the two-directory site, not at
most one. -/
theorem claim_C1_counterexample :
    (explore_repository envC1 10 (S "1") (S "r")
        st0).download_attempts.count (S "F") = 2 ∧
    ¬ ((explore_repository envC1 10 (S "1") (S "r")
        st0).download_attempts.count (S "F") ≤ 1) := by
  constructor <;> decide
/-- Claim C1 as amended: for every file identifier at most one
FileMapping entry exists per run, because file_mapping is a dict keyed by
the identifier and a later download overwrites the entry in place; but
download attempts are not deduplicated — every encounter of a link
carrying the identifier triggers a fresh download, as the two-directory
site shows with two attempts for F next to its single mapping entry. -/
theorem claim_C1 (env : Env) (fuel : Nat) (repo_id link_text : List Char)
    (st : St) (h : KeysNodup st.file_mapping) :
    KeysNodup (explore_repository env fuel repo_id link_text
      st).file_mapping ∧
    (explore_repository envC1 10 (S "1") (S "r") st0).file_mapping.map
      Prod.fst = [S "F"] ∧
    (explore_repository envC1 10 (S "1") (S "r")
      st0).download_attempts.count (S "F") = 2 := by
  refine ⟨?_, by decide, by decide⟩
  refine explore_pres env (fun s => KeysNodup s.file_mapping) ?_ ?_ ?_
    fuel repo_id link_text st h
  · intro s x hs
    exact hs
  · intro d l s hs
    show KeysNodup (save_page env d l s).file_mapping
    rw [save_page_file_mapping]
    exact hs
  · intro f t r s hs
    exact download_file_keys env f t r s hs
/-- Witness for the amended claim C1 at the two-directory site. -/
theorem claim_C1_witness :
    KeysNodup st0.file_mapping ∧
    (KeysNodup (explore_repository envC1 10 (S "1") (S "r")
      st0).file_mapping ∧
    (explore_repository envC1 10 (S "1") (S "r") st0).file_mapping.map
      Prod.fst = [S "F"] ∧
    (explore_repository envC1 10 (S "1") (S "r")
      st0).download_attempts.count (S "F") = 2) :=
  ⟨by decide, claim_C1 envC1 10 (S "1") (S "r") st0 (by decide)⟩
/-- Counterexample to claim C2 as stated: when the saved page is detected
as not logged in, save_page aborts with no PageMapping entry, yet the
directory identifier has already entered the visited set, contrary to the
claimed atomicity. -/
theorem claim_C2_counterexample :
    (S "5") ∈ (save_page envC2 (S "5") (S "x") st0).visited_repos ∧
    (save_page envC2 (S "5") (S "x") st0).repo_mapping = [] := by
  constructor <;> decide
/-- Claim C2 as amended: save_page adds the directory identifier to the
visited set at entry, before the page content check, so the identifier is
in the VisitedSet afterwards whether or not the save aborts; the
PageMapping entry is recorded exactly when the page carries the logged-in
marker; and a directory already visited is never re-entered. -/
theorem claim_C2 (env : Env) (d t : List Char) (st : St)
    (h : ¬ d ∈ st.visited_repos) :
    (save_page env d t st).visited_repos = st.visited_repos ++ [d] ∧
    ((env.page d).loggedIn = false →
      (save_page env d t st).repo_mapping = st.repo_mapping) ∧
    ((env.page d).loggedIn = true →
      (save_page env d t st).repo_mapping = dictInsert st.repo_mapping d
        ⟨S "docs_rep_" ++ d ++ S ".html", t, S "docs?rep=" ++ d, t⟩) ∧
    (∀ st2 : St, d ∈ st2.visited_repos → save_page env d t st2 = st2) := by
  refine ⟨?_, ?_, ?_, ?_⟩
  · simp only [save_page]
    rw [if_neg h]
    split <;> rfl
  · intro hlog
    simp only [save_page]
    rw [if_neg h, if_pos hlog]
  · intro hlog
    simp only [save_page]
    rw [if_neg h, if_neg (by rw [hlog]; simp)]
  · intro st2 h2
    simp only [save_page]
    rw [if_pos h2]
/-- Witness for the amended claim C2 on the not-logged-in site. -/
theorem claim_C2_witness :
    (¬ (S "5") ∈ st0.visited_repos) ∧
    ((save_page envC2 (S "5") (S "x") st0).visited_repos =
      st0.visited_repos ++ [S "5"] ∧
    ((envC2.page (S "5")).loggedIn = false →
      (save_page envC2 (S "5") (S "x") st0).repo_mapping =
        st0.repo_mapping) ∧
    ((envC2.page (S "5")).loggedIn = true →
      (save_page envC2 (S "5") (S "x") st0).repo_mapping =
        dictInsert st0.repo_mapping (S "5")
          ⟨S "docs_rep_" ++ S "5" ++ S ".html", S "x",
            S "docs?rep=" ++ S "5", S "x"⟩) ∧
    (∀ st2 : St, (S "5") ∈ st2.visited_repos →
      save_page envC2 (S "5") (S "x") st2 = st2)) :=
  ⟨by decide, claim_C2 envC2 (S "5") (S "x") st0 (by decide)⟩
/-- Claim C3: the visited set never holds a directory identifier twice,
every recorded page file name is docs_rep followed by the identifier and
the html extension, and in the site whose root links directory 5 twice,
directory 5 is explored once and saved once. -/
theorem claim_C3 (env : Env) (fuel : Nat) (d t : List Char) (st : St)
    (h1 : st.visited_repos.Nodup)
    (h2 : ∀ p ∈ st.repo_mapping,
      p.2.fichier = S "docs_rep_" ++ p.1 ++ S ".html") :
    (explore_repository env fuel d t st).visited_repos.Nodup ∧
    (∀ p ∈ (explore_repository env fuel d t st).repo_mapping,
      p.2.fichier = S "docs_rep_" ++ p.1 ++ S ".html") ∧
    ((explore_repository envC3 10 (S "1") (S "r") st0).explore_log =
      [S "1", S "5"] ∧
    (explore_repository envC3 10 (S "1") (S "r") st0).visited_repos =
      [S "1", S "5"] ∧
    (explore_repository envC3 10 (S "1") (S "r") st0).repo_mapping.map
      Prod.fst = [S "1", S "5"]) := by
  have hmain : P3 (explore_repository env fuel d t st) := by
    refine explore_pres env P3 ?_ ?_ ?_ fuel d t st ⟨h1, h2⟩
    · intro s x hs
      exact hs
    · intro d2 l s hs
      exact save_page_P3 env d2 l s hs
    · intro f2 t2 r2 s hs
      exact download_file_P3 env f2 t2 r2 s hs
  exact ⟨hmain.1, hmain.2, by decide, by decide, by decide⟩
/-- Witness for claim C3 at the duplicate-links site. -/
theorem claim_C3_witness :
    (st0.visited_repos.Nodup ∧ ∀ p ∈ st0.repo_mapping,
      p.2.fichier = S "docs_rep_" ++ p.1 ++ S ".html") ∧
    ((explore_repository envC3 10 (S "1") (S "r")
      st0).visited_repos.Nodup ∧
    (∀ p ∈ (explore_repository envC3 10 (S "1") (S "r") st0).repo_mapping,
      p.2.fichier = S "docs_rep_" ++ p.1 ++ S ".html") ∧
    ((explore_repository envC3 10 (S "1") (S "r") st0).explore_log =
      [S "1", S "5"] ∧
    (explore_repository envC3 10 (S "1") (S "r") st0).visited_repos =
      [S "1", S "5"] ∧
    (explore_repository envC3 10 (S "1") (S "r") st0).repo_mapping.map
      Prod.fst = [S "1", S "5"])) :=
  ⟨⟨by decide, by decide⟩,
    claim_C3 envC3 10 (S "1") (S "r") st0 (by decide) (by decide)⟩
/-- Counterexample to claim C7 as stated: the cleaning regex keeps the
underscore, a word character in the regex class, although the claimed
character set has no underscore. -/
theorem claim_C7_counterexample :
    safe_title (S "a_b") = S "a_b" ∧ '_' ∈ S "a_b" ∧
      ¬ slugCharClaimed '_' := by
  refine ⟨by decide, by decide, by decide⟩
/-- Claim C7 as amended: every slug character is a letter, a digit, an
underscore, a space, a hyphen or a period; runs of whitespace are
collapsed so no two consecutive characters are both whitespace; the slug
is at most 200 characters before the extension is appended; the real
extension of the downloaded file always ends the final name; and the
scenario title produces the expected slug with the alias entry named
after the raw identifier F99. -/
theorem claim_C7 (t ext : List Char) (hext : ext ≠ []) :
    (∀ c ∈ safe_title t, slugChar c) ∧
    NoWsRun (safe_title t) ∧
    (safe_title t).length ≤ 200 ∧
    ext <:+ withExt (safe_title t) ext ∧
    safe_title (S "Exam Subject #3 (2024).pdf") =
      S "Exam Subject 3 2024.pdf" ∧
    (download_file envC7 (S "F99") (S "Exam Subject #3 (2024).pdf")
      (S "r") st0).1.file_mapping =
      [(S "F99", ⟨S "Exam Subject 3 2024.pdf", S "F99",
        S "Exam Subject #3 (2024).pdf", S "r", S "10 octets"⟩)] :=
  ⟨safe_title_chars t, safe_title_noRun t, safe_title_len t,
    withExt_suffix _ hext, by decide, by decide⟩
/-- Witness for the amended claim C7 at the scenario title and the pdf
extension. -/
theorem claim_C7_witness :
    ((S ".pdf" : List Char) ≠ []) ∧
    ((∀ c ∈ safe_title (S "Exam Subject #3 (2024).pdf"), slugChar c) ∧
    NoWsRun (safe_title (S "Exam Subject #3 (2024).pdf")) ∧
    (safe_title (S "Exam Subject #3 (2024).pdf")).length ≤ 200 ∧
    (S ".pdf" : List Char) <:+
      withExt (safe_title (S "Exam Subject #3 (2024).pdf")) (S ".pdf") ∧
    safe_title (S "Exam Subject #3 (2024).pdf") =
      S "Exam Subject 3 2024.pdf" ∧
    (download_file envC7 (S "F99") (S "Exam Subject #3 (2024).pdf")
      (S "r") st0).1.file_mapping =
      [(S "F99", ⟨S "Exam Subject 3 2024.pdf", S "F99",
        S "Exam Subject #3 (2024).pdf", S "r", S "10 octets"⟩)]) :=
  ⟨by decide, claim_C7 (S "Exam Subject #3 (2024).pdf") (S ".pdf")
    (by decide)⟩
/-- Claim C8 concerns a code bug: the wait loop of lines 356 to 362
re-reads the suffix attribute of the immutable Path value instead of the
download folder, so an attempt whose selected entry still carried the
in-progress marker always fails as incomplete.  In the modelled run the
marker disappears from the folder at the second poll, well within the
budget, so the spec says the attempt succeeds, yet the code records the
incomplete-download failure. -/
theorem claim_C8 :
    markerRemovedWithinBudget dlC8 (S "cours.pdf.part") ∧
    download_file envC8 (S "F") (S "t") (S "r") st0 =
      ({ st0 with
          download_attempts := [S "F"],
          failed_files := [⟨S "F", S "t", S "Téléchargement incomplet"⟩] },
        false) := by
  constructor
  · exact ⟨1, by omega, by decide⟩
  · decide
/-- Claim C9: a download whose polling budget elapses with no new folder
entry returns failure, appends the failure record with the identifier,
the title and the no-new-file reason, creates no FileMapping entry, and
the traversal goes on with the next file, as the two-file directory run
shows. -/
theorem claim_C9 (env : Env) (f t r : List Char) (st : St)
    (hm : st.test_mode = false)
    (hpoll : ∀ j < 30, ∀ e ∈ (env.dl f).snap j,
      e.name ∈ (env.dl f).before) :
    download_file env f t r st =
      ({ st with
          download_attempts := st.download_attempts ++ [f],
          failed_files := (st.failed_files ++
            [⟨f, t, S "Aucun nouveau fichier téléchargé trouvé"⟩]) },
        false) ∧
    (download_file env f t r st).1.file_mapping = st.file_mapping ∧
    ((explore_repository envC9 10 (S "1") (S "r") st0).file_mapping.map
      Prod.fst = [S "fok"] ∧
    (explore_repository envC9 10 (S "1") (S "r") st0).failed_files =
      [⟨S "fbad", S "tb", S "Aucun nouveau fichier téléchargé trouvé"⟩]) := by
  have heq : download_file env f t r st =
      ({ st with
          download_attempts := st.download_attempts ++ [f],
          failed_files := (st.failed_files ++
            [⟨f, t, S "Aucun nouveau fichier téléchargé trouvé"⟩]) },
        false) := by
    simp only [download_file]
    rw [if_neg (by rw [hm]; simp), pollLoop_none hpoll]
  refine ⟨heq, by rw [heq], by decide, by decide⟩
/-- Witness for claim C9 at the two-file directory site. -/
theorem claim_C9_witness :
    (st0.test_mode = false ∧
      (∀ j < 30, ∀ e ∈ (envC9.dl (S "fbad")).snap j,
        e.name ∈ (envC9.dl (S "fbad")).before)) ∧
    (download_file envC9 (S "fbad") (S "tb") (S "r") st0 =
      ({ st0 with
          download_attempts := st0.download_attempts ++ [S "fbad"],
          failed_files := (st0.failed_files ++
            [⟨S "fbad", S "tb",
              S "Aucun nouveau fichier téléchargé trouvé"⟩]) },
        false) ∧
    (download_file envC9 (S "fbad") (S "tb") (S "r")
      st0).1.file_mapping = st0.file_mapping ∧
    ((explore_repository envC9 10 (S "1") (S "r") st0).file_mapping.map
      Prod.fst = [S "fok"] ∧
    (explore_repository envC9 10 (S "1") (S "r") st0).failed_files =
      [⟨S "fbad", S "tb",
        S "Aucun nouveau fichier téléchargé trouvé"⟩])) :=
  ⟨⟨by decide, by decide⟩,
    claim_C9 envC9 (S "fbad") (S "tb") (S "r") st0 (by decide) (by decide)⟩

end CahierPrepa
